import Mathlib

set_option maxRecDepth 8000

/-!
Verification development for the tubes flow-control engine
(twisted/tubes/tube.py).

The engine is embedded shallowly: the mutable attributes of `_Siphon`,
`_SiphonFount` and `_SiphonDrain` become fields of an explicit state
record, and each Python method becomes a state-transition function,
transliterated statement by statement.  The environment of one engine --
its upstream founts and downstream drains -- is modelled by passive
recorders: every call the engine makes on an upstream fount or a
downstream drain is appended to a global event trace.  Python exceptions
that escape (failed assert, TypeError from the attach-time type check,
AttributeError from calling a method on None) set a `crashed` flag that
freezes the world, mirroring an exception propagating to the caller.

Tube hooks (`started` / `received` / `stopped`) are parameters: each
yields either an exception, or None, or an iterable of output values,
where an output value is a plain item or a Deferred placeholder.  The
lazy generator of `_DrainingTube.started` performs side effects when it
is exhausted (re-attaching the real upstream and releasing its pause);
a pending sequence therefore carries an optional exhaustion finalizer,
which is `none` for every ordinary hook result.
-/

namespace TubeSpec

/-- A value yielded by a tube hook into the pending sequence: either a
plain output item, or a Deferred (a future whose value arrives later,
recognised by the `isinstance(value, Deferred)` test in
`_Siphon._unbufferIterator`). -/
inductive TOut (β : Type) where
  | item : β → TOut β
  | future : TOut β
  deriving DecidableEq, Repr

/-- A stop reason: an external reason code handed to `flowStopped`, or a
Failure wrapping exception code `n` produced when a hook raised. -/
inductive Rsn where
  | ext : Nat → Rsn
  | failure : Nat → Rsn
  deriving DecidableEq, Repr

/-- A Python exception escaping the engine code: the failed assert of
`_Siphon._deliverFrom`, the TypeError of the attach-time type check in
`_SiphonDrain.flowingFrom`, or an AttributeError from invoking a method
on None. -/
inductive Err where
  | assertFailed
  | typeMismatch
  | attrNone
  deriving DecidableEq, Repr

/-- What the fount slot of the siphon drain (`_SiphonDrain.fount`) can
hold: an upstream recorder fount identified by a number, or the inert
`_FakestFount` used to bootstrap a diversion. -/
inductive SFount where
  | up (u : Nat)
  | fakest
  deriving DecidableEq, Repr

/-- Effects of exhausting the `_DrainingTube.started` generator: the
generator body, after its last yield, runs
`eventualUpstream.flowTo(eventualDownstream)` and `hangOn.unpause()`. -/
structure Finalizer where
  up : SFount
  down : Nat
  deriving DecidableEq, Repr

/-- The pending sequence (`_Siphon._pendingIterator`): the items still to
be drained, plus the optional exhaustion finalizer of a
`_DrainingTube.started` generator.  Ordinary hook results have
`onExhaust = none`. -/
structure Pending (β : Type) where
  items : List (TOut β)
  onExhaust : Option Finalizer := none
  deriving DecidableEq, Repr

/-- The outcome of invoking a tube hook: it raises exception code `n`,
or it returns None (no output), or it returns an iterable. -/
inductive HookRes (β : Type) where
  | raises : Nat → HookRes β
  | ret : Option (Pending β) → HookRes β
  deriving DecidableEq, Repr

/-- A transformation unit (the `ITube` contract after the `tube`
decorator has filled in defaults): type tags and the three hooks. -/
structure Tube (α β : Type) where
  inputType : Option Nat := none
  outputType : Option Nat := none
  started : HookRes β := .ret none
  received : α → HookRes β
  stopped : Rsn → HookRes β := fun _ => .ret none

/-- The fount argument a recorder drain observes in `flowingFrom`. -/
inductive FRef where
  | detached
  | siphon
  | upstream (u : Nat)
  | bootstrap
  deriving DecidableEq, Repr

/-- A call made on a downstream recorder drain. -/
inductive DEv (β : Type) where
  | flowingFrom (f : FRef)
  | receive (b : β)
  | flowStopped (r : Rsn)
  deriving DecidableEq, Repr

/-- A call made on an upstream recorder fount. -/
inductive UpEv where
  | pauseFlow
  | unpause
  | stopFlow
  | flowTo (d : Nat)
  deriving DecidableEq, Repr

/-- One entry of the global, ordered event trace. -/
inductive GEv (β : Type) where
  | toDrain (d : Nat) (e : DEv β)
  | onUp (u : Nat) (e : UpEv)
  | logged (e : Nat)
  deriving DecidableEq, Repr

/-- A pause token stored in `_Siphon._pauseBecausePauseCalled`: a real
token minted by upstream recorder `u`, or a `_PlaceholderPause`. -/
inductive UpTok where
  | real (u : Nat)
  | placeholder
  deriving DecidableEq, Repr

/-- The mutable state of one `_Siphon` together with its two endpoint
objects.  `fountPauses` is the `pauses` counter of the `_Pauser` owned by
the siphon's `_SiphonFount`; `drain` is `_SiphonFount.drain` (a recorder
id); `fount` is `_SiphonDrain.fount`.  `waitingFuture` records that a
`whenUnclogged` callback is registered on an outstanding Deferred.
`startedCount` is a ghost counter, incremented exactly where
`flowingFrom` invokes the `started` hook; it has no influence on any
behaviour. -/
structure SSt (β : Type) where
  currentlyPaused : Bool := false
  pauseBecausePauseCalled : Option UpTok := none
  pendingIterator : Option (Pending β) := none
  flowWasStopped : Bool := false
  everStarted : Bool := false
  pauseBecauseNoDrain : Bool := false
  unbuffering : Bool := false
  flowStoppingReason : Option Rsn := none
  fountPauses : Nat := 0
  drain : Option Nat := none
  fount : Option SFount := none
  waitingFuture : Bool := false
  startedCount : Nat := 0
  deriving DecidableEq, Repr

/-- The world: one siphon state, the global trace of calls made on the
recorder environment, and the crash flag. -/
structure W (β : Type) where
  s : SSt β
  trace : List (GEv β) := []
  crashed : Option Err := none
  deriving DecidableEq, Repr

variable {α β : Type}

/-- Record a call on downstream recorder drain `d`. -/
def emitD (d : Nat) (e : DEv β) (w : W β) : W β :=
  { w with trace := w.trace ++ [.toDrain d e] }

/-- Record a call on upstream recorder fount `u`. -/
def emitUp (u : Nat) (e : UpEv) (w : W β) : W β :=
  { w with trace := w.trace ++ [.onUp u e] }

/-- Record a `log.err` of a Failure with exception code `e`. -/
def logErr (e : Nat) (w : W β) : W β :=
  { w with trace := w.trace ++ [.logged e] }

/-- An uncaught Python exception: freeze the world. -/
def crash (e : Err) (w : W β) : W β :=
  { w with crashed := some e }

/-- `outputType` of a fount: a recorder fount advertises the tag given by
the environment `uot`; `_FakestFount.outputType` is None. -/
def sfOutputType (uot : Nat → Option Nat) : SFount → Option Nat
  | .up u => uot u
  | .fakest => none

/-- `pauseFlow()` on a fount: a recorder fount mints a real token;
`_FakestFount.pauseFlow` returns a `_PlaceholderPause`. -/
def sfPauseFlow : SFount → W β → W β × UpTok
  | .up u, w => (emitUp u .pauseFlow w, .real u)
  | .fakest, w => (w, .placeholder)

/-- `stopFlow()` on a fount: recorded on a recorder fount;
`_FakestFount.stopFlow` is a no-op. -/
def sfStopFlow : SFount → W β → W β
  | .up u, w => emitUp u .stopFlow w
  | .fakest, w => w

/-- `unpause()` on a token held in `pauseBecausePauseCalled`: a real
token releases the upstream pause; `_PlaceholderPause.unpause` is a
no-op. -/
def unpauseTok : UpTok → W β → W β
  | .real u, w => emitUp u .unpause w
  | .placeholder, w => w

/-- `_SiphonFount._actuallyPause`: mark the siphon paused and, if an
upstream fount is attached and no propagated pause is outstanding,
obtain a pause token from it. -/
def actuallyPause (w : W β) : W β :=
  let w := { w with s.currentlyPaused := true }
  match w.s.fount, w.s.pauseBecausePauseCalled with
  | some f, none =>
    let (w, tk) := sfPauseFlow f w
    { w with s.pauseBecausePauseCalled := some tk }
  | _, _ => w

/-- `_Pauser.pauseFlow` on the siphon fount's own pauser: call
`_actuallyPause` on the 0 to 1 transition, then increment the count.
The returned token is tracked by the caller's slot. -/
def fountPauseFlow (w : W β) : W β :=
  let w := if w.s.fountPauses = 0 then actuallyPause w else w
  { w with s.fountPauses := w.s.fountPauses + 1 }

/-- The side effects `_DrainingTube.started` performs when its generator
is exhausted: `eventualUpstream.flowTo(eventualDownstream)` (which makes
the upstream call `flowingFrom` on the new drain) and then
`hangOn.unpause()`. -/
def runFin : Option Finalizer → W β → W β
  | none, w => w
  | some fz, w =>
    match fz.up with
    | .up u =>
      let w := emitUp u (.flowTo fz.down) w
      let w := emitD fz.down (.flowingFrom (.upstream u)) w
      emitUp u .unpause w
    | .fakest =>
      emitD fz.down (.flowingFrom .bootstrap) w

/-- The `while not self._currentlyPaused` loop of
`_Siphon._unbufferIterator`, with the remaining items of the live
iterator made explicit.  Exiting while paused leaves the remaining items
as the pending sequence; exhaustion runs the generator finalizer, clears
the pending sequence and delivers a recorded stop reason downstream;
a Deferred issues a fresh pause token on the siphon's own fount and
registers the `whenUnclogged` callback; a plain item is delivered to the
attached drain (an AttributeError if there is none). -/
def unbufferLoop (fz : Option Finalizer) : List (TOut β) → W β → W β
  | l, w =>
    if w.s.currentlyPaused then
      { w with s.pendingIterator := some ⟨l, fz⟩ }
    else
      match l with
      | [] =>
        let w := runFin fz w
        let w := { w with s.pendingIterator := none }
        match w.s.flowStoppingReason with
        | some r =>
          match w.s.drain with
          | some d => emitD d (.flowStopped r) w
          | none => crash .attrNone w
        | none => w
      | v :: rest =>
        match v with
        | .future =>
          let w := fountPauseFlow w
          unbufferLoop fz rest { w with s.waitingFuture := true }
        | .item b =>
          match w.s.drain with
          | some d => unbufferLoop fz rest (emitD d (.receive b) w)
          | none => crash .attrNone { w with s.pendingIterator := some ⟨rest, fz⟩ }

/-- `_Siphon._unbufferIterator`: no-op when re-entered (the
`_unbuffering` guard) or when there is no pending sequence; otherwise
run the drain loop under the guard. -/
def unbufferIterator (w : W β) : W β :=
  if w.crashed.isSome then w
  else if w.s.unbuffering then w
  else
    match w.s.pendingIterator with
    | none => w
    | some p =>
      let w := unbufferLoop p.onExhaust p.items { w with s.unbuffering := true }
      if w.crashed.isSome then w else { w with s.unbuffering := false }

/-- `_SiphonFount._actuallyResume`: clear the pause flag, drain, and if
still unpaused release the propagated upstream token. -/
def actuallyResume (w : W β) : W β :=
  let w := { w with s.currentlyPaused := false }
  let w := unbufferIterator w
  if w.crashed.isSome then w
  else if w.s.currentlyPaused then w
  else
    match w.s.pauseBecausePauseCalled with
    | some tok => unpauseTok tok { w with s.pauseBecausePauseCalled := none }
    | none => w

/-- `_Pause.unpause` on a live token of the siphon fount's own pauser:
decrement the count and call `_actuallyResume` on reaching zero. -/
def fountUnpause (w : W β) : W β :=
  let w := { w with s.fountPauses := w.s.fountPauses - 1 }
  if w.s.fountPauses = 0 then actuallyResume w else w

/-- `_Siphon._deliverFrom`: assert that no pending sequence exists,
invoke the hook; a raised exception is logged, the upstream is stopped
and the failure forwarded downstream; a None result does nothing; an
iterable becomes the pending sequence, with a self-issued pause when no
drain is attached, and is then drained. -/
def deliverFrom (h : HookRes β) (w : W β) : W β :=
  if w.crashed.isSome then w
  else if w.s.pendingIterator.isSome then crash .assertFailed w
  else
    match h with
    | .raises e =>
      let w := logErr e w
      match w.s.fount with
      | none => crash .attrNone w
      | some f =>
        let w := sfStopFlow f w
        match w.s.drain with
        | some d => emitD d (.flowStopped (.failure e)) w
        | none => w
    | .ret none => w
    | .ret (some p) =>
      let w := { w with s.pendingIterator := some p }
      let w :=
        if w.s.drain.isNone then
          if w.s.pauseBecauseNoDrain then w
          else { (fountPauseFlow w) with s.pauseBecauseNoDrain := true }
        else w
      unbufferIterator w

/-- `_SiphonFount.flowTo`: notify a previously attached drain with
`flowingFrom(None)`, record the new drain, return immediately when
detaching; otherwise call `flowingFrom` on the new drain, release the
no-drain pause if one is outstanding, and drain. -/
def fountFlowTo (d : Option Nat) (w : W β) : W β :=
  if w.crashed.isSome then w
  else
    let w :=
      match w.s.drain with
      | some old => emitD old (.flowingFrom .detached) w
      | none => w
    let w := { w with s.drain := d }
    match d with
    | none => w
    | some dn =>
      let w := emitD dn (.flowingFrom .siphon) w
      let w :=
        if w.s.pauseBecauseNoDrain then
          fountUnpause { w with s.pauseBecauseNoDrain := false }
        else w
      if w.crashed.isSome then w else unbufferIterator w

/-- `_SiphonDrain.flowingFrom`: attach-time type check, record the
upstream, re-issue an outstanding propagated pause against the new
upstream, forward a previously requested stop, invoke `started` on the
first attachment with a present fount, and re-attach the downstream via
the siphon's own fount. -/
def drainFlowingFrom (t : Tube α β) (ioe : Nat → Nat → Bool)
    (uot : Nat → Option Nat) (fnt : Option SFount) (w : W β) : W β :=
  if w.crashed.isSome then w
  else
    let badType : Bool :=
      match fnt with
      | some f =>
        match sfOutputType uot f, t.inputType with
        | some out, some inT => ! ioe inT out
        | _, _ => false
      | none => false
    if badType then crash .typeMismatch w
    else
      let w := { w with s.fount := fnt }
      let w :=
        match w.s.pauseBecausePauseCalled with
        | some tok =>
          let w := unpauseTok tok { w with s.pauseBecausePauseCalled := none }
          match fnt with
          | none => { w with s.pauseBecausePauseCalled := some .placeholder }
          | some f =>
            let (w, tk) := sfPauseFlow f w
            { w with s.pauseBecausePauseCalled := some tk }
        | none => w
      let w :=
        match fnt with
        | some f =>
          let w := if w.s.flowWasStopped then sfStopFlow f w else w
          if w.s.everStarted then w
          else
            deliverFrom t.started
              { w with s.everStarted := true, s.startedCount := w.s.startedCount + 1 }
        | none => w
      if w.crashed.isSome then w
      else
        match w.s.drain with
        | none => w
        | some d => fountFlowTo (some d) w

/-- `_SiphonDrain.receive`: deliver from the `received` hook. -/
def receive (t : Tube α β) (a : α) (w : W β) : W β :=
  if w.crashed.isSome then w else deliverFrom (t.received a) w

/-- `_SiphonDrain.flowStopped`: record the reason, then deliver from the
`stopped` hook. -/
def drainFlowStopped (t : Tube α β) (r : Rsn) (w : W β) : W β :=
  if w.crashed.isSome then w
  else deliverFrom (t.stopped r) { w with s.flowStoppingReason := some r }

/-- `_SiphonFount.stopFlow`: mark the flow stopped and forward
`stopFlow` to the attached upstream fount. -/
def fountStopFlow (w : W β) : W β :=
  if w.crashed.isSome then w
  else
    let w := { w with s.flowWasStopped := true }
    match w.s.fount with
    | none => w
    | some f => sfStopFlow f w

/-- `_SiphonFount.pauseFlow` called by an external downstream party; the
returned token is held by that party and not modelled further. -/
def extPauseFlow (w : W β) : W β :=
  if w.crashed.isSome then w else fountPauseFlow w

/-- The registered `whenUnclogged` callback firing with result `v`:
splice the result onto the front of the still-pending sequence and
release the pause token issued when the Deferred was encountered.  A no-
op when no callback is registered. -/
def fire (v : TOut β) (w : W β) : W β :=
  if w.crashed.isSome then w
  else if w.s.waitingFuture then
    let items := v :: (match w.s.pendingIterator with | some p => p.items | none => [])
    let fz := match w.s.pendingIterator with | some p => p.onExhaust | none => none
    let w := { w with s.waitingFuture := false, s.pendingIterator := some ⟨items, fz⟩ }
    fountUnpause w
  else w

/-- `Diverter.divert`: read the friend siphon's pending sequence, pass
it raw to `reassemble`, build a `_DrainingTube` seeded with the result
(whose construction pauses the real upstream), wire it through
`series` and a `_FakestFount`, and flow its fount to the new drain.  The
friend siphon's own state is read but never written. -/
def divert (reassemble : Option (List (TOut β)) → Option (List β))
    (ioe : Nat → Nat → Bool) (uot : Nat → Option Nat)
    (newDrain : Nat) (w : W β) : W β :=
  if w.crashed.isSome then w
  else
    let pendingPending := (reassemble (w.s.pendingIterator.map Pending.items)).getD []
    match w.s.fount with
    | none => crash .attrNone w
    | some f =>
      let w1 := (sfPauseFlow f w).1
      let dtTube : Tube Unit β :=
        { received := fun _ => .ret none,
          started := .ret (some ⟨pendingPending.map TOut.item, some ⟨f, newDrain⟩⟩) }
      let dw : W β := { s := {}, trace := w1.trace, crashed := w1.crashed }
      let dw := drainFlowingFrom dtTube ioe uot none dw
      let dw := drainFlowingFrom dtTube ioe uot (some .fakest) dw
      let dw := fountFlowTo (some newDrain) dw
      { s := w.s, trace := dw.trace, crashed := dw.crashed }

/-! ### Driver events

A single attached engine is exercised by three kinds of external events:
an upstream `receive`, an upstream `flowStopped`, and the resolution of
the Deferred the engine is currently waiting on. -/

/-- An external event fed to an attached engine. -/
inductive InEv (α β : Type) where
  | recv (a : α)
  | stop (r : Rsn)
  | fire (v : TOut β)
  deriving Repr

/-- Apply one external event to the engine. -/
def stepIn (t : Tube α β) : InEv α β → W β → W β
  | .recv a, w => receive t a w
  | .stop r, w => drainFlowStopped t r w
  | .fire v, w => fire v w

/-- Run a list of external events through the engine. -/
def runIn (t : Tube α β) (evs : List (InEv α β)) (w : W β) : W β :=
  evs.foldl (fun w e => stepIn t e w) w

/-! ### The abstract drain specification

Modelled from the spec: the order in which a stage must deliver output
is the order the hooks yield items, with a Deferred suspending delivery
and its resolved value spliced back at the Deferred's own position.
These definitions follow the specification text; the refinement theorems
below compare the engine transliterated above against them. -/

/-- Deliver items in yield order up to the first Deferred: the result is
the delivered prefix, together with `none` when the sequence was
exhausted or `some rest` when a Deferred suspended delivery with `rest`
still pending. -/
def drainAbs : List (TOut β) → List β × Option (List (TOut β))
  | [] => ([], none)
  | .item b :: r =>
    let p := drainAbs r
    (b :: p.1, p.2)
  | .future :: r => ([], some r)

/-- The abstract state of an attached stage: `buf` is `none` when idle
and `some rest` when suspended on a Deferred with `rest` still pending;
`srsn` is the recorded stop reason; `sdone` marks that the stop
notification has been forwarded downstream. -/
structure Abs (β : Type) where
  buf : Option (List (TOut β)) := none
  srsn : Option Rsn := none
  sdone : Bool := false
  deriving DecidableEq, Repr

/-- The receive events delivered to downstream drain `d`. -/
def recvEvs (d : Nat) (outs : List β) : List (GEv β) :=
  outs.map fun b => .toDrain d (.receive b)

/-- One step of the abstract stage: `none` when the event is not a
well-formed interaction with an attached, flow-control-respecting
environment (an upstream only sends while the stage is undisturbed and
unsuspended, each hook involved returns an ordinary iterable or None,
and a resolution only arrives while a Deferred is outstanding).  A
`some` result gives the successor state and the exact calls the stage
makes on its environment. -/
def absStep (t : Tube α β) (d u : Nat) : InEv α β → Abs β → Option (Abs β × List (GEv β))
  | .recv a, ⟨none, none, false⟩ =>
    match t.received a with
    | .raises _ => none
    | .ret none => some (⟨none, none, false⟩, [])
    | .ret (some ⟨l, none⟩) =>
      match drainAbs l with
      | (outs, none) => some (⟨none, none, false⟩, recvEvs d outs)
      | (outs, some rest) =>
        some (⟨some rest, none, false⟩, recvEvs d outs ++ [.onUp u .pauseFlow])
    | .ret (some ⟨_, some _⟩) => none
  | .stop r, ⟨none, none, false⟩ =>
    match t.stopped r with
    | .raises _ => none
    | .ret none => some (⟨none, some r, false⟩, [])
    | .ret (some ⟨l, none⟩) =>
      match drainAbs l with
      | (outs, none) =>
        some (⟨none, some r, true⟩, recvEvs d outs ++ [.toDrain d (.flowStopped r)])
      | (outs, some rest) =>
        some (⟨some rest, some r, false⟩, recvEvs d outs ++ [.onUp u .pauseFlow])
    | .ret (some ⟨_, some _⟩) => none
  | .fire v, ⟨some rest, σ, false⟩ =>
    match drainAbs (v :: rest) with
    | (outs, none) =>
      some (⟨none, σ, σ.isSome⟩,
        recvEvs d outs ++
          (match σ with
           | some r => [.toDrain d (.flowStopped r)]
           | none => []) ++ [.onUp u .unpause])
    | (outs, some rest2) => some (⟨some rest2, σ, false⟩, recvEvs d outs)
  | _, _ => none

/-- Run the abstract stage over a list of events, collecting all calls
it makes on its environment. -/
def absRun (t : Tube α β) (d u : Nat) : List (InEv α β) → Abs β → Option (Abs β × List (GEv β))
  | [], a => some (a, [])
  | e :: es, a =>
    match absStep t d u e a with
    | none => none
    | some (a1, o1) =>
      match absRun t d u es a1 with
      | none => none
      | some (a2, o2) => some (a2, o1 ++ o2)

/-- The refinement relation tying the abstract stage state to the
concrete engine state: attached to drain `d` and upstream `u`, pending
and pause bookkeeping determined by whether the stage is suspended. -/
abbrev Inv (d u : Nat) (a : Abs β) (w : W β) : Prop :=
  w.crashed = none ∧
  w.s.drain = some d ∧
  w.s.fount = some (.up u) ∧
  w.s.unbuffering = false ∧
  w.s.flowStoppingReason = a.srsn ∧
  w.s.pendingIterator = a.buf.map (fun r => ⟨r, none⟩) ∧
  w.s.currentlyPaused = a.buf.isSome ∧
  w.s.fountPauses = (if a.buf.isSome then 1 else 0) ∧
  w.s.pauseBecausePauseCalled = (if a.buf.isSome then some (.real u) else none) ∧
  w.s.waitingFuture = a.buf.isSome

/-! ### The reference-counted pause manager (`_Pauser` / `_Pause`) -/

/-- Callbacks of a `_Pauser`, recorded as events: `actuallyPause` fires
on the 0 to 1 transition, `actuallyResume` on reaching 0. -/
inductive PEv where
  | firstPause
  | lastResume
  deriving DecidableEq, Repr

/-- A `_Pauser` together with every `_Pause` token it has minted:
`tokens` holds the `alive` flag of token `i`. -/
structure PauserSt where
  pauses : Nat := 0
  tokens : List Bool := []
  events : List PEv := []
  deriving DecidableEq, Repr

/-- `_Pauser.pauseFlow`: invoke `actuallyPause` when no pause is
outstanding, increment the count, mint a live token; the new token's id
is returned. -/
def pauseFlow (p : PauserSt) : PauserSt × Nat :=
  let p1 := if p.pauses = 0 then { p with events := p.events ++ [.firstPause] } else p
  ({ p1 with pauses := p1.pauses + 1, tokens := p1.tokens ++ [true] }, p1.tokens.length)

/-- `_Pause.unpause`: on a live token decrement the count, invoke
`actuallyResume` exactly when it reaches 0, and kill the token; on a
dead token raise `AlreadyUnpaused` (modelled as `none`). -/
def unpause (p : PauserSt) (i : Nat) : Option PauserSt :=
  if p.tokens.getD i false then
    let p1 := { p with pauses := p.pauses - 1 }
    let p2 :=
      if p1.pauses = 0 then { p1 with events := p1.events ++ [.lastResume] } else p1
    some { p2 with tokens := p2.tokens.set i false }
  else none

/-- Call `pauseFlow` `n` times. -/
def pauseN : Nat → PauserSt → PauserSt
  | 0, p => p
  | n + 1, p => pauseN n (pauseFlow p).1

/-- Release the tokens listed in `l`, left to right, failing as soon as
one release raises `AlreadyUnpaused`. -/
def unpauseAll : List Nat → PauserSt → Option PauserSt
  | [], p => some p
  | i :: l, p =>
    match unpause p i with
    | none => none
    | some p1 => unpauseAll l p1

/-! ### Arbitrary operation sequences on one engine -/

/-- Any operation the environment can perform on one engine. -/
inductive Op (α β : Type) where
  | fromUp (fnt : Option SFount)
  | recv (a : α)
  | stop (r : Rsn)
  | toDrain (d : Option Nat)
  | stopUp
  | extPause
  | fireFuture (v : TOut β)
  | divertTo (newDrain : Nat)
  deriving Repr

/-- Apply one operation to the engine. -/
def stepOp (t : Tube α β) (ioe : Nat → Nat → Bool) (uot : Nat → Option Nat)
    (reassemble : Option (List (TOut β)) → Option (List β)) :
    Op α β → W β → W β
  | .fromUp fnt, w => drainFlowingFrom t ioe uot fnt w
  | .recv a, w => receive t a w
  | .stop r, w => drainFlowStopped t r w
  | .toDrain d, w => fountFlowTo d w
  | .stopUp, w => fountStopFlow w
  | .extPause, w => extPauseFlow w
  | .fireFuture v, w => fire v w
  | .divertTo nd, w => divert reassemble ioe uot nd w

/-- Run a list of operations. -/
def runOps (t : Tube α β) (ioe : Nat → Nat → Bool) (uot : Nat → Option Nat)
    (reassemble : Option (List (TOut β)) → Option (List β))
    (ops : List (Op α β)) (w : W β) : W β :=
  ops.foldl (fun w o => stepOp t ioe uot reassemble o w) w

/-- The calls `runFin` makes on the environment. -/
def finEvs : Option Finalizer → List (GEv β)
  | none => []
  | some fz =>
    match fz.up with
    | .up u =>
      [.onUp u (.flowTo fz.down), .toDrain fz.down (.flowingFrom (.upstream u)),
       .onUp u .unpause]
    | .fakest => [.toDrain fz.down (.flowingFrom .bootstrap)]

/-- No `receive` call on drain `d` occurs in the trace fragment. -/
def noRecvAtB (d : Nat) (l : List (GEv β)) : Bool :=
  l.all fun e =>
    match e with
    | .toDrain d2 (.receive _) => !(d2 == d)
    | _ => true

/-- No `flowStopped` call on drain `d` occurs in the trace fragment. -/
def noStopAtB (d : Nat) (l : List (GEv β)) : Bool :=
  l.all fun e =>
    match e with
    | .toDrain d2 (.flowStopped _) => !(d2 == d)
    | _ => true

/-- Every `flowStopped` call on drain `d` in the trace fragment is
followed by no further `receive` call on `d`. -/
def stopLastB (d : Nat) : List (GEv β) → Bool
  | [] => true
  | e :: tl =>
    (match e with
     | .toDrain d2 (.flowStopped _) => !(d2 == d) || noRecvAtB d tl
     | _ => true) && stopLastB d tl

/-! ### Concrete instances used by the witnesses -/

/-- A concrete tube: `received a` yields an item, a Deferred, then a
second item; `stopped` yields one final item. -/
def wTube : Tube Nat Nat :=
  { received := fun a => .ret (some ⟨[.item a, .future, .item (a + 10)], none⟩),
    stopped := fun _ => .ret (some ⟨[.item 99], none⟩) }

/-- A concrete attached engine: drain recorder 0 downstream, fount
recorder 1 upstream. -/
def wWorld : W Nat :=
  { s := { drain := some 0, fount := some (.up 1), everStarted := true } }

/-- A concrete tube with an accepted type tag. -/
def wTubeTyped : Tube Nat Nat :=
  { inputType := some 3, received := fun _ => .ret none }

/-- The start-tracking observables: the `everStarted` flag and the ghost
count of `started` invocations. -/
def escOf (w : W β) : Bool × Nat := (w.s.everStarted, w.s.startedCount)

/-- A concrete tube whose `received a` yields the two plain items `a`
and `a + 1`. -/
def wTubeItems : Tube Nat Nat :=
  { received := fun a => .ret (some ⟨[.item a, .item (a + 1)], none⟩) }

/-- A concrete engine with one buffered-but-undelivered output item,
paused with no drain attached, used by the diversion witness. -/
def wDivWorld : W Nat :=
  { s := { fount := some (.up 1),
           pendingIterator := some ⟨[TOut.item 4], none⟩,
           currentlyPaused := true, fountPauses := 1,
           pauseBecauseNoDrain := true } }

/-- The reassembly hook of the diversion witness: each buffered item
`b` becomes `b` and `b + 1`, with a trailing `7`. -/
def wReassemble (o : Option (List (TOut Nat))) : Option (List Nat) :=
  some ((o.getD []).foldr
    (fun x acc =>
      match x with
      | TOut.item b => b :: (b + 1) :: acc
      | TOut.future => acc) [7])

/-- The pauser state after `n` calls to `pauseFlow` (issuing tokens
`0 .. n-1`) followed by releasing exactly the tokens listed in `S`. -/
def midSt (N : Nat) (S : List Nat) : PauserSt :=
  { pauses := N - S.length,
    tokens := (List.range N).map fun i => ! S.contains i,
    events := [.firstPause] ++ (if S.length < N then [] else [.lastResume]) }

/-! ## Lemmas -/

@[simp] lemma emitD_s (d : Nat) (e : DEv β) (w : W β) : (emitD d e w).s = w.s := rfl

@[simp] lemma emitD_crashed (d : Nat) (e : DEv β) (w : W β) :
    (emitD d e w).crashed = w.crashed := rfl

@[simp] lemma emitD_trace (d : Nat) (e : DEv β) (w : W β) :
    (emitD d e w).trace = w.trace ++ [.toDrain d e] := rfl

@[simp] lemma emitUp_s (u : Nat) (e : UpEv) (w : W β) : (emitUp u e w).s = w.s := rfl

@[simp] lemma emitUp_crashed (u : Nat) (e : UpEv) (w : W β) :
    (emitUp u e w).crashed = w.crashed := rfl

@[simp] lemma emitUp_trace (u : Nat) (e : UpEv) (w : W β) :
    (emitUp u e w).trace = w.trace ++ [.onUp u e] := rfl

@[simp] lemma logErr_s (e : Nat) (w : W β) : (logErr e w).s = w.s := rfl

@[simp] lemma logErr_crashed (e : Nat) (w : W β) : (logErr e w).crashed = w.crashed := rfl

@[simp] lemma logErr_trace (e : Nat) (w : W β) :
    (logErr e w).trace = w.trace ++ [.logged e] := rfl

@[simp] lemma crash_s (e : Err) (w : W β) : (crash e w).s = w.s := rfl

@[simp] lemma crash_crashed (e : Err) (w : W β) : (crash e w).crashed = some e := rfl

@[simp] lemma crash_trace (e : Err) (w : W β) : (crash e w).trace = w.trace := rfl

lemma runFin_eq (fz : Option Finalizer) (w : W β) :
    runFin fz w = { w with trace := w.trace ++ finEvs fz } := by
  cases fz with
  | none => simp [runFin, finEvs]
  | some fz =>
    cases h : fz.up <;>
      simp [runFin, finEvs, emitUp, emitD, h, List.append_assoc]

lemma drainAbs_items (bs : List β) : drainAbs (bs.map TOut.item) = (bs, none) := by
  induction bs with
  | nil => simp [drainAbs]
  | cons b bs ih => simp [drainAbs, ih]

/-- The drain loop is a no-op while the engine is paused: the remaining
items stay pending. -/
lemma unbufferLoop_paused (fz : Option Finalizer) (l : List (TOut β)) (w : W β)
    (h : w.s.currentlyPaused = true) :
    unbufferLoop fz l w = { w with s.pendingIterator := some ⟨l, fz⟩ } := by
  rw [unbufferLoop.eq_def]
  simp [h]

/-- Draining a pending sequence with no Deferred left in it: every item
is delivered in order, the generator finalizer runs, the pending
sequence is cleared, and a recorded stop reason is forwarded. -/
lemma unbufferLoop_exhaust (fz : Option Finalizer) (d : Nat) :
    ∀ (l : List (TOut β)) (outs : List β), drainAbs l = (outs, none) →
    ∀ (w : W β), w.crashed = none → w.s.currentlyPaused = false →
      w.s.drain = some d →
    unbufferLoop fz l w =
      { w with
        s.pendingIterator := none,
        trace := w.trace ++ recvEvs d outs ++ finEvs fz ++
          (match w.s.flowStoppingReason with
           | some r => [GEv.toDrain d (.flowStopped r)]
           | none => []) } := by
  intro l
  induction l with
  | nil =>
    intro outs hl w hc hp hd
    simp [drainAbs] at hl
    subst hl
    obtain ⟨⟨cp, pbpc, pend, fws, es, pbnd, ub, srsn, fp, dr, ft, wf, sc⟩, tr, cr⟩ := w
    simp only at hc hp hd
    subst hc hp hd
    rw [unbufferLoop]
    simp only [runFin_eq]
    cases srsn <;> simp [recvEvs, emitD, List.append_assoc]
  | cons v rest ih =>
    intro outs hl w hc hp hd
    cases v with
    | future => simp [drainAbs] at hl
    | item b =>
      rcases h2 : drainAbs rest with ⟨o1, r1⟩
      simp only [drainAbs, h2] at hl
      obtain ⟨rfl, rfl⟩ := Prod.mk.injEq _ _ _ _ ▸ hl
      rw [unbufferLoop]
      simp only [hp, if_neg (Bool.false_ne_true), hd]
      rw [ih o1 h2 (emitD d (.receive b) w) (by simpa using hc)
        (by simpa using hp) (by simpa using hd)]
      obtain ⟨⟨cp, pbpc, pend, fws, es, pbnd, ub, srsn, fp, dr, ft, wf, sc⟩, tr, cr⟩ := w
      simp only at hc hp hd
      subst hc hp hd
      simp [recvEvs, emitD]

/-- Draining a pending sequence up to its first Deferred: the prefix of
plain items is delivered, a fresh pause token is issued on the engine's
own fount (propagated upstream only when no propagated token is already
held), the `whenUnclogged` callback is registered and draining suspends
with the remaining items pending. -/
lemma unbufferLoop_suspend (fz : Option Finalizer) (d u : Nat) :
    ∀ (l : List (TOut β)) (outs : List β) (rest : List (TOut β)),
      drainAbs l = (outs, some rest) →
    ∀ (w : W β), w.crashed = none → w.s.currentlyPaused = false →
      w.s.fountPauses = 0 → w.s.drain = some d → w.s.fount = some (.up u) →
    unbufferLoop fz l w =
      { w with
        s.currentlyPaused := true,
        s.fountPauses := 1,
        s.waitingFuture := true,
        s.pendingIterator := some ⟨rest, fz⟩,
        s.pauseBecausePauseCalled :=
          (if w.s.pauseBecausePauseCalled = none then some (.real u)
           else w.s.pauseBecausePauseCalled),
        trace := w.trace ++ recvEvs d outs ++
          (if w.s.pauseBecausePauseCalled = none then [GEv.onUp u .pauseFlow]
           else []) } := by
  intro l
  induction l with
  | nil =>
    intro outs rest hl
    simp [drainAbs] at hl
  | cons v tl ih =>
    intro outs rest hl w hc hp hn hd hf
    cases v with
    | item b =>
      rcases h2 : drainAbs tl with ⟨o1, r1⟩
      simp only [drainAbs, h2] at hl
      obtain ⟨rfl, hr⟩ := Prod.mk.injEq _ _ _ _ ▸ hl
      subst hr
      rw [unbufferLoop]
      simp only [hp, if_neg (Bool.false_ne_true), hd]
      rw [ih o1 rest h2 (emitD d (.receive b) w) (by simpa using hc)
        (by simpa using hp) (by simpa using hn) (by simpa using hd)
        (by simpa using hf)]
      obtain ⟨⟨cp, pbpc, pend, fws, es, pbnd, ub, srsn, fp, dr, ft, wf, sc⟩, tr, cr⟩ := w
      simp only at hc hp hn hd hf
      subst hc hp hn hd hf
      cases pbpc <;> simp [recvEvs, emitD]
    | future =>
      simp only [drainAbs] at hl
      obtain ⟨rfl, hr⟩ := Prod.mk.injEq _ _ _ _ ▸ hl
      obtain rfl : rest = tl := by simpa using hr.symm
      obtain ⟨⟨cp, pbpc, pend, fws, es, pbnd, ub, srsn, fp, dr, ft, wf, sc⟩, tr, cr⟩ := w
      simp only at hc hp hn hd hf
      subst hc hp hn hd hf
      rw [unbufferLoop]
      cases pbpc <;>
        simp [fountPauseFlow, actuallyPause, sfPauseFlow, emitUp, recvEvs,
          unbufferLoop_paused]

/-- Unfolding `deliverFrom` on an iterable hook result when a drain is
attached. -/
lemma deliverFrom_ret_some (w : W β) (p : Pending β)
    (hc : w.crashed = none) (hpend : w.s.pendingIterator = none)
    (hd : w.s.drain.isNone = false) :
    deliverFrom (.ret (some p)) w =
      unbufferIterator { w with s.pendingIterator := some p } := by
  simp [deliverFrom, hc, hpend, hd]

/-- Unfolding `unbufferIterator` when a pending sequence exists and the
guard is clear. -/
lemma unbufferIterator_run (w : W β) (p : Pending β)
    (hc : w.crashed = none) (hub : w.s.unbuffering = false)
    (hpend : w.s.pendingIterator = some p) :
    unbufferIterator w =
      (let w2 := unbufferLoop p.onExhaust p.items { w with s.unbuffering := true }
       if w2.crashed.isSome then w2 else { w2 with s.unbuffering := false }) := by
  simp [unbufferIterator, hc, hub, hpend]

/-- Unfolding `fire` when a callback is registered. -/
lemma fire_run (v : TOut β) (w : W β) (p : Pending β)
    (hc : w.crashed = none) (hwf : w.s.waitingFuture = true)
    (hpend : w.s.pendingIterator = some p) :
    fire v w =
      fountUnpause
        { w with
          s.waitingFuture := false,
          s.pendingIterator := some ⟨v :: p.items, p.onExhaust⟩ } := by
  simp [fire, hc, hwf, hpend]

/-- Unfolding `fountUnpause` when exactly one pause is outstanding. -/
lemma fountUnpause_one (w : W β) (h : w.s.fountPauses = 1) :
    fountUnpause w = actuallyResume { w with s.fountPauses := 0 } := by
  simp [fountUnpause, h]

/-- Unfolding `actuallyResume`. -/
lemma actuallyResume_eq (w : W β) :
    actuallyResume w =
      (let w1 := unbufferIterator { w with s.currentlyPaused := false }
       if w1.crashed.isSome then w1
       else if w1.s.currentlyPaused then w1
       else
         match w1.s.pauseBecausePauseCalled with
         | some tok => unpauseTok tok { w1 with s.pauseBecausePauseCalled := none }
         | none => w1) := rfl

/-- Delivering a Deferred-free hook result on an idle attached engine:
all items are delivered synchronously, then a recorded stop reason is
forwarded. -/
lemma deliver_idle_exhaust (d u : Nat) (l : List (TOut β)) (outs : List β)
    (hl : drainAbs l = (outs, none)) (w : W β)
    (hc : w.crashed = none) (hd : w.s.drain = some d)
    (hf : w.s.fount = some (.up u)) (hub : w.s.unbuffering = false)
    (hpend : w.s.pendingIterator = none) (hcp : w.s.currentlyPaused = false) :
    deliverFrom (.ret (some ⟨l, none⟩)) w =
      { w with
        trace := w.trace ++ recvEvs d outs ++
          (match w.s.flowStoppingReason with
           | some r => [GEv.toDrain d (.flowStopped r)]
           | none => []) } := by
  obtain ⟨⟨cp, pbpc, pend, fws, es, pbnd, ub, srsn, fp, dr, ft, wf, sc⟩, tr, cr⟩ := w
  simp only at hc hd hf hub hpend hcp
  subst hc hd hf hub hpend hcp
  rw [deliverFrom_ret_some _ ⟨l, none⟩ rfl rfl (by simp)]
  rw [unbufferIterator_run _ ⟨l, none⟩ rfl rfl rfl]
  rw [unbufferLoop_exhaust none d l outs hl _ rfl rfl rfl]
  cases srsn <;> simp [finEvs]

/-- Delivering a hook result containing a Deferred on an idle attached
engine: the prefix before the Deferred is delivered, the engine pauses
itself (propagating the pause upstream) and suspends with the suffix
pending. -/
lemma deliver_idle_suspend (d u : Nat) (l : List (TOut β)) (outs : List β)
    (rest : List (TOut β)) (hl : drainAbs l = (outs, some rest)) (w : W β)
    (hc : w.crashed = none) (hd : w.s.drain = some d)
    (hf : w.s.fount = some (.up u)) (hub : w.s.unbuffering = false)
    (hpend : w.s.pendingIterator = none) (hcp : w.s.currentlyPaused = false)
    (hfp : w.s.fountPauses = 0) (hpbpc : w.s.pauseBecausePauseCalled = none) :
    deliverFrom (.ret (some ⟨l, none⟩)) w =
      { w with
        s.currentlyPaused := true,
        s.fountPauses := 1,
        s.waitingFuture := true,
        s.pendingIterator := some ⟨rest, none⟩,
        s.pauseBecausePauseCalled := some (.real u),
        trace := w.trace ++ recvEvs d outs ++ [GEv.onUp u .pauseFlow] } := by
  obtain ⟨⟨cp, pbpc, pend, fws, es, pbnd, ub, srsn, fp, dr, ft, wf, sc⟩, tr, cr⟩ := w
  simp only at hc hd hf hub hpend hcp hfp hpbpc
  subst hc hd hf hub hpend hcp hfp hpbpc
  rw [deliverFrom_ret_some _ ⟨l, none⟩ rfl rfl (by simp)]
  rw [unbufferIterator_run _ ⟨l, none⟩ rfl rfl rfl]
  rw [unbufferLoop_suspend none d u l outs rest hl _ rfl rfl rfl rfl rfl]
  simp

/-- Resolution of the outstanding Deferred when the spliced sequence
contains no further Deferred: the resolved value and everything after it
are delivered, a recorded stop reason is forwarded, and the propagated
upstream pause is released. -/
lemma fire_exhaust (d u : Nat) (v : TOut β) (rest : List (TOut β))
    (outs : List β) (hl : drainAbs (v :: rest) = (outs, none)) (w : W β)
    (hc : w.crashed = none) (hd : w.s.drain = some d)
    (hf : w.s.fount = some (.up u)) (hub : w.s.unbuffering = false)
    (hpend : w.s.pendingIterator = some ⟨rest, none⟩)
    (hcp : w.s.currentlyPaused = true) (hfp : w.s.fountPauses = 1)
    (hpbpc : w.s.pauseBecausePauseCalled = some (.real u))
    (hwf : w.s.waitingFuture = true) :
    fire v w =
      { w with
        s.currentlyPaused := false,
        s.fountPauses := 0,
        s.waitingFuture := false,
        s.pendingIterator := none,
        s.pauseBecausePauseCalled := none,
        trace := w.trace ++ recvEvs d outs ++
          (match w.s.flowStoppingReason with
           | some r => [GEv.toDrain d (.flowStopped r)]
           | none => []) ++ [GEv.onUp u .unpause] } := by
  obtain ⟨⟨cp, pbpc, pend, fws, es, pbnd, ub, srsn, fp, dr, ft, wf, sc⟩, tr, cr⟩ := w
  simp only at hc hd hf hub hpend hcp hfp hpbpc hwf
  subst hc hd hf hub hpend hcp hfp hpbpc hwf
  rw [fire_run v _ ⟨rest, none⟩ rfl rfl rfl]
  rw [fountUnpause_one _ rfl]
  rw [actuallyResume_eq]
  rw [unbufferIterator_run _ ⟨v :: rest, none⟩ rfl rfl rfl]
  rw [unbufferLoop_exhaust none d (v :: rest) outs hl _ rfl rfl rfl]
  cases srsn <;> simp [finEvs, unpauseTok, emitUp, List.append_assoc]

/-- `deliverFrom` on a None hook result does nothing. -/
lemma deliverFrom_ret_none (w : W β) (hc : w.crashed = none)
    (hpend : w.s.pendingIterator = none) :
    deliverFrom (.ret none) w = w := by
  simp [deliverFrom, hc, hpend]

/-- `receive` is exactly `deliverFrom` of the `received` hook. -/
lemma receive_eq (t : Tube α β) (a : α) (w : W β) (hc : w.crashed = none) :
    receive t a w = deliverFrom (t.received a) w := by
  simp [receive, hc]

/-- `flowStopped` records the reason, then delivers from the `stopped`
hook. -/
lemma drainFlowStopped_eq (t : Tube α β) (r : Rsn) (w : W β)
    (hc : w.crashed = none) :
    drainFlowStopped t r w =
      deliverFrom (t.stopped r) { w with s.flowStoppingReason := some r } := by
  simp [drainFlowStopped, hc]

/-- Resolution of the outstanding Deferred when the spliced sequence
contains a further Deferred: the prefix is delivered and the engine
suspends again, re-using the already-propagated upstream pause. -/
lemma fire_suspend (d u : Nat) (v : TOut β) (rest : List (TOut β))
    (outs : List β) (rest2 : List (TOut β))
    (hl : drainAbs (v :: rest) = (outs, some rest2)) (w : W β)
    (hc : w.crashed = none) (hd : w.s.drain = some d)
    (hf : w.s.fount = some (.up u)) (hub : w.s.unbuffering = false)
    (hpend : w.s.pendingIterator = some ⟨rest, none⟩)
    (hcp : w.s.currentlyPaused = true) (hfp : w.s.fountPauses = 1)
    (hpbpc : w.s.pauseBecausePauseCalled = some (.real u))
    (hwf : w.s.waitingFuture = true) :
    fire v w =
      { w with
        s.waitingFuture := true,
        s.pendingIterator := some ⟨rest2, none⟩,
        trace := w.trace ++ recvEvs d outs } := by
  obtain ⟨⟨cp, pbpc, pend, fws, es, pbnd, ub, srsn, fp, dr, ft, wf, sc⟩, tr, cr⟩ := w
  simp only at hc hd hf hub hpend hcp hfp hpbpc hwf
  subst hc hd hf hub hpend hcp hfp hpbpc hwf
  rw [fire_run v _ ⟨rest, none⟩ rfl rfl rfl]
  rw [fountUnpause_one _ rfl]
  rw [actuallyResume_eq]
  rw [unbufferIterator_run _ ⟨v :: rest, none⟩ rfl rfl rfl]
  rw [unbufferLoop_suspend none d u (v :: rest) outs rest2 hl _ rfl rfl rfl
    rfl rfl]
  simp

/-- One environment event refines one abstract step: the engine makes
exactly the calls the abstract stage specifies, and the refinement
relation is re-established. -/
lemma step_sim (t : Tube α β) (d u : Nat) (e : InEv α β) (a a' : Abs β)
    (out : List (GEv β)) (w : W β)
    (hs : absStep t d u e a = some (a', out)) (hI : Inv d u a w) :
    Inv d u a' (stepIn t e w) ∧ (stepIn t e w).trace = w.trace ++ out := by
  obtain ⟨hc, hd, hf, hub, hsr, hpend, hcp, hfp, hpbpc, hwf⟩ := hI
  rcases a with ⟨buf, σ, sd⟩
  cases e with
  | recv a0 =>
    cases buf with
    | some rest => simp [absStep] at hs
    | none =>
      cases σ with
      | some r => simp [absStep] at hs
      | none =>
        cases sd with
        | true => simp [absStep] at hs
        | false =>
          simp at hsr hpend hcp hfp hpbpc hwf
          simp only [stepIn]
          rw [receive_eq t a0 w hc]
          cases hrec : t.received a0 with
          | raises e0 => simp [absStep, hrec] at hs
          | ret o =>
            cases o with
            | none =>
              simp only [absStep, hrec] at hs
              rcases Option.some.injEq .. ▸ hs with ⟨rfl, rfl⟩
              rw [deliverFrom_ret_none w hc hpend]
              exact ⟨⟨hc, hd, hf, hub, hsr, hpend, hcp, hfp, hpbpc, hwf⟩,
                by simp⟩
            | some p =>
              rcases p with ⟨l, fz⟩
              cases fz with
              | some f => simp [absStep, hrec] at hs
              | none =>
                rcases h2 : drainAbs l with ⟨outs, orest⟩
                cases orest with
                | none =>
                  simp only [absStep, hrec, h2] at hs
                  rcases Option.some.injEq .. ▸ hs with ⟨rfl, rfl⟩
                  rw [deliver_idle_exhaust d u l outs h2 w hc hd hf hub
                    hpend hcp]
                  refine ⟨⟨hc, hd, hf, hub, ?_, hpend, hcp, hfp, hpbpc, hwf⟩, ?_⟩
                  · exact hsr
                  · rw [hsr]
                    simp
                | some rest =>
                  simp only [absStep, hrec, h2] at hs
                  rcases Option.some.injEq .. ▸ hs with ⟨rfl, rfl⟩
                  rw [deliver_idle_suspend d u l outs rest h2 w hc hd hf
                    hub hpend hcp hfp hpbpc]
                  exact ⟨⟨hc, hd, hf, hub, hsr, rfl, rfl, rfl, rfl, rfl⟩,
                    by simp⟩
  | stop r =>
    cases buf with
    | some rest => simp [absStep] at hs
    | none =>
      cases σ with
      | some r0 => simp [absStep] at hs
      | none =>
        cases sd with
        | true => simp [absStep] at hs
        | false =>
          simp at hsr hpend hcp hfp hpbpc hwf
          simp only [stepIn]
          rw [drainFlowStopped_eq t r w hc]
          cases hrec : t.stopped r with
          | raises e0 => simp [absStep, hrec] at hs
          | ret o =>
            cases o with
            | none =>
              simp only [absStep, hrec] at hs
              rcases Option.some.injEq .. ▸ hs with ⟨rfl, rfl⟩
              rw [deliverFrom_ret_none _ (by simpa using hc) (by simpa using hpend)]
              exact ⟨⟨hc, hd, hf, hub, rfl, hpend, hcp, hfp, hpbpc, hwf⟩,
                by simp⟩
            | some p =>
              rcases p with ⟨l, fz⟩
              cases fz with
              | some f => simp [absStep, hrec] at hs
              | none =>
                rcases h2 : drainAbs l with ⟨outs, orest⟩
                cases orest with
                | none =>
                  simp only [absStep, hrec, h2] at hs
                  rcases Option.some.injEq .. ▸ hs with ⟨rfl, rfl⟩
                  rw [deliver_idle_exhaust d u l outs h2 _ (by simpa using hc)
                    (by simpa using hd) (by simpa using hf) (by simpa using hub)
                    (by simpa using hpend) (by simpa using hcp)]
                  exact ⟨⟨hc, hd, hf, hub, rfl, hpend, hcp, hfp, hpbpc, hwf⟩,
                    by simp⟩
                | some rest =>
                  simp only [absStep, hrec, h2] at hs
                  rcases Option.some.injEq .. ▸ hs with ⟨rfl, rfl⟩
                  rw [deliver_idle_suspend d u l outs rest h2 _
                    (by simpa using hc) (by simpa using hd) (by simpa using hf)
                    (by simpa using hub) (by simpa using hpend)
                    (by simpa using hcp) (by simpa using hfp)
                    (by simpa using hpbpc)]
                  exact ⟨⟨hc, hd, hf, hub, rfl, rfl, rfl, rfl, rfl, rfl⟩,
                    by simp⟩
  | fire v =>
    cases buf with
    | none => simp [absStep] at hs
    | some rest =>
      cases sd with
      | true => simp [absStep] at hs
      | false =>
        simp at hsr hpend hcp hfp hpbpc hwf
        simp only [stepIn]
        rcases h2 : drainAbs (v :: rest) with ⟨outs, orest⟩
        cases orest with
        | none =>
          simp only [absStep, h2] at hs
          rcases Option.some.injEq .. ▸ hs with ⟨rfl, rfl⟩
          rw [fire_exhaust d u v rest outs h2 w hc hd hf hub hpend hcp hfp
            hpbpc hwf]
          refine ⟨⟨hc, hd, hf, hub, hsr, rfl, rfl, rfl, rfl, rfl⟩, ?_⟩
          rw [hsr]
          cases σ <;> simp
        | some rest2 =>
          simp only [absStep, h2] at hs
          rcases Option.some.injEq .. ▸ hs with ⟨rfl, rfl⟩
          rw [fire_suspend d u v rest outs rest2 h2 w hc hd hf hub hpend hcp
            hfp hpbpc hwf]
          exact ⟨⟨hc, hd, hf, hub, hsr, rfl, hcp, hfp, hpbpc, rfl⟩, by simp⟩

/-- `runIn` unfolds one event at a time. -/
lemma runIn_cons (t : Tube α β) (e : InEv α β) (es : List (InEv α β))
    (w : W β) : runIn t (e :: es) w = runIn t es (stepIn t e w) := rfl

/-- Refinement over a whole event sequence: an engine driven by a
well-formed event sequence makes exactly the calls of the abstract
stage, in the same order. -/
lemma run_sim (t : Tube α β) (d u : Nat) :
    ∀ (evs : List (InEv α β)) (a a' : Abs β) (out : List (GEv β)) (w : W β),
      absRun t d u evs a = some (a', out) → Inv d u a w →
      Inv d u a' (runIn t evs w) ∧ (runIn t evs w).trace = w.trace ++ out := by
  intro evs
  induction evs with
  | nil =>
    intro a a' out w hr hI
    simp only [absRun, Option.some.injEq] at hr
    rcases Prod.mk.injEq _ _ _ _ ▸ hr with ⟨rfl, rfl⟩
    exact ⟨hI, by simp [runIn]⟩
  | cons e es ih =>
    intro a a' out w hr hI
    simp only [absRun] at hr
    rcases h1 : absStep t d u e a with _ | ⟨a1, o1⟩ <;> rw [h1] at hr <;>
      dsimp only at hr
    · simp at hr
    · rcases h2 : absRun t d u es a1 with _ | ⟨a2, o2⟩ <;> rw [h2] at hr <;>
        dsimp only at hr
      · simp at hr
      · simp only [Option.some.injEq] at hr
        rcases Prod.mk.injEq _ _ _ _ ▸ hr with ⟨rfl, rfl⟩
        obtain ⟨hI1, htr1⟩ := step_sim t d u e a a1 o1 w h1 hI
        obtain ⟨hI2, htr2⟩ := ih a1 a2 o2 (stepIn t e w) h2 hI1
        rw [runIn_cons]
        exact ⟨hI2, by rw [htr2, htr1, List.append_assoc]⟩

/-- C1: for every finite sequence of items fed to an attached engine's
drain via `receive` (with Deferred resolutions interleaved), the calls
the engine makes on its environment -- in particular the items delivered
to the attached downstream drain -- are exactly, and in exactly the
order of, the output of the abstract per-yield specification `absRun`:
items are delivered in the order the unit's `received` hook yields them;
a yielded Deferred suspends draining and issues a fresh pause token on
the engine's fount (pausing the upstream); and on resolution the
resolved value is spliced onto the front of the pending sequence, so it
is delivered at its original position before any later-yielded item.
The re-established relation `Inv` exhibits the suspension state (pending
suffix, pause accounting, registered callback) after the run. -/
theorem c1_receive_order (t : Tube α β) (d u : Nat) (evs : List (InEv α β))
    (a' : Abs β) (out : List (GEv β)) (w : W β)
    (hwf : absRun t d u evs ⟨none, none, false⟩ = some (a', out))
    (hI : Inv d u ⟨none, none, false⟩ w) :
    (runIn t evs w).trace = w.trace ++ out ∧ Inv d u a' (runIn t evs w) := by
  obtain ⟨h1, h2⟩ := run_sim t d u evs _ a' out w hwf hI
  exact ⟨h2, h1⟩

/-- `noRecvAtB` distributes over append. -/
lemma noRecvAtB_append (d : Nat) (x y : List (GEv β)) :
    noRecvAtB d (x ++ y) = (noRecvAtB d x && noRecvAtB d y) := by
  simp [noRecvAtB]

/-- `noStopAtB` distributes over append. -/
lemma noStopAtB_append (d : Nat) (x y : List (GEv β)) :
    noStopAtB d (x ++ y) = (noStopAtB d x && noStopAtB d y) := by
  simp [noStopAtB]

/-- Delivered items are not stop notifications. -/
lemma noStopAtB_recvEvs (d d2 : Nat) (outs : List β) :
    noStopAtB d (recvEvs d2 outs) = true := by
  induction outs with
  | nil => rfl
  | cons b bs ih => simp only [recvEvs, noStopAtB, List.all_cons] at ih ⊢; exact ih

/-- A fragment without stop notifications on `d` contributes nothing to
`stopLastB`. -/
lemma stopLastB_append_noStop (d : Nat) :
    ∀ (x y : List (GEv β)), noStopAtB d x = true →
      stopLastB d (x ++ y) = stopLastB d y := by
  intro x
  induction x with
  | nil => intro y _; rfl
  | cons e tl ih =>
    intro y hx
    rw [noStopAtB, List.all_cons, Bool.and_eq_true] at hx
    obtain ⟨he, htl⟩ := hx
    have htl' : noStopAtB d tl = true := htl
    rw [List.cons_append]
    rcases e with ⟨d2, de⟩ | ⟨u2, ue⟩ | e0
    · cases de with
      | flowStopped r =>
        have he' : (!(d2 == d)) = true := by simpa using he
        rw [stopLastB]
        simp [he', ih y htl']
      | receive b =>
        rw [stopLastB]
        simp [ih y htl']
        try (intro d3 r3 h3; simp at h3)
      | flowingFrom f =>
        rw [stopLastB]
        simp [ih y htl']
        try (intro d3 r3 h3; simp at h3)
    · rw [stopLastB]
      simp [ih y htl']
      try (intro d3 r3 h3; simp at h3)
    · rw [stopLastB]
      simp [ih y htl']
      try (intro d3 r3 h3; simp at h3)

/-- A finished abstract stage accepts no further event. -/
lemma absStep_sdone_none (t : Tube α β) (d u : Nat) (e : InEv α β)
    (a : Abs β) (h : a.sdone = true) : absStep t d u e a = none := by
  rcases a with ⟨buf, σ, sd⟩
  simp only at h
  subst h
  cases e <;> cases buf <;> cases σ <;> simp [absStep]

/-- A well-formed run from a finished abstract stage is empty. -/
lemma absRun_sdone (t : Tube α β) (d u : Nat) (evs : List (InEv α β))
    (a a' : Abs β) (out : List (GEv β)) (h : a.sdone = true)
    (hr : absRun t d u evs a = some (a', out)) : evs = [] ∧ out = [] := by
  cases evs with
  | nil =>
    simp only [absRun, Option.some.injEq] at hr
    rcases Prod.mk.injEq _ _ _ _ ▸ hr with ⟨rfl, rfl⟩
    exact ⟨rfl, rfl⟩
  | cons e es =>
    simp only [absRun] at hr
    rw [absStep_sdone_none t d u e a h] at hr
    simp at hr

/-- Classification of one abstract step's output: it either contains no
stop notification on `d` and the stage is not finished, or the stage
just finished and the stop notification is followed by no delivery. -/
lemma absStep_out_class (t : Tube α β) (d u : Nat) (e : InEv α β)
    (a a1 : Abs β) (o1 : List (GEv β))
    (h : absStep t d u e a = some (a1, o1)) :
    (a1.sdone = false ∧ noStopAtB d o1 = true) ∨
      (a1.sdone = true ∧ stopLastB d o1 = true) := by
  rcases a with ⟨buf, σ, sd⟩
  cases e with
  | recv a0 =>
    cases buf <;> cases σ <;> cases sd <;> try simp [absStep] at h
    cases hrec : t.received a0 with
    | raises e0 => simp [absStep, hrec] at h
    | ret o =>
      cases o with
      | none =>
        simp only [absStep, hrec] at h
        rcases Option.some.injEq .. ▸ h with ⟨rfl, rfl⟩
        exact Or.inl ⟨rfl, rfl⟩
      | some p =>
        rcases p with ⟨l, fz⟩
        cases fz with
        | some f => simp [absStep, hrec] at h
        | none =>
          rcases h2 : drainAbs l with ⟨outs, orest⟩
          cases orest with
          | none =>
            simp only [absStep, hrec, h2] at h
            rcases Option.some.injEq .. ▸ h with ⟨rfl, rfl⟩
            exact Or.inl ⟨rfl, noStopAtB_recvEvs d d outs⟩
          | some rest =>
            simp only [absStep, hrec, h2] at h
            rcases Option.some.injEq .. ▸ h with ⟨rfl, rfl⟩
            refine Or.inl ⟨rfl, ?_⟩
            rw [noStopAtB_append, noStopAtB_recvEvs]
            rfl
  | stop r =>
    cases buf <;> cases σ <;> cases sd <;> try simp [absStep] at h
    cases hrec : t.stopped r with
    | raises e0 => simp [absStep, hrec] at h
    | ret o =>
      cases o with
      | none =>
        simp only [absStep, hrec] at h
        rcases Option.some.injEq .. ▸ h with ⟨rfl, rfl⟩
        exact Or.inl ⟨rfl, rfl⟩
      | some p =>
        rcases p with ⟨l, fz⟩
        cases fz with
        | some f => simp [absStep, hrec] at h
        | none =>
          rcases h2 : drainAbs l with ⟨outs, orest⟩
          cases orest with
          | none =>
            simp only [absStep, hrec, h2] at h
            rcases Option.some.injEq .. ▸ h with ⟨rfl, rfl⟩
            refine Or.inr ⟨rfl, ?_⟩
            rw [stopLastB_append_noStop d _ _ (noStopAtB_recvEvs d d outs)]
            simp [stopLastB, noRecvAtB]
          | some rest =>
            simp only [absStep, hrec, h2] at h
            rcases Option.some.injEq .. ▸ h with ⟨rfl, rfl⟩
            refine Or.inl ⟨rfl, ?_⟩
            rw [noStopAtB_append, noStopAtB_recvEvs]
            rfl
  | fire v =>
    cases buf with
    | none => simp [absStep] at h
    | some rest =>
      cases sd with
      | true => simp [absStep] at h
      | false =>
        rcases h2 : drainAbs (v :: rest) with ⟨outs, orest⟩
        cases orest with
        | none =>
          simp only [absStep, h2] at h
          rcases Option.some.injEq .. ▸ h with ⟨rfl, rfl⟩
          cases σ with
          | none =>
            refine Or.inl ⟨rfl, ?_⟩
            dsimp only
            rw [List.append_nil, noStopAtB_append, noStopAtB_recvEvs]
            rfl
          | some r =>
            refine Or.inr ⟨rfl, ?_⟩
            rw [List.append_assoc,
              stopLastB_append_noStop d _ _ (noStopAtB_recvEvs d d outs)]
            simp [stopLastB, noRecvAtB]
        | some rest2 =>
          simp only [absStep, h2] at h
          rcases Option.some.injEq .. ▸ h with ⟨rfl, rfl⟩
          exact Or.inl ⟨rfl, noStopAtB_recvEvs d d outs⟩

/-- In the output of any well-formed abstract run, a stop notification
on `d` is never followed by a delivery on `d`. -/
lemma absRun_stopLast (t : Tube α β) (d u : Nat) :
    ∀ (evs : List (InEv α β)) (a a' : Abs β) (out : List (GEv β)),
      absRun t d u evs a = some (a', out) → a.sdone = false →
      stopLastB d out = true := by
  intro evs
  induction evs with
  | nil =>
    intro a a' out hr _
    simp only [absRun, Option.some.injEq] at hr
    rcases Prod.mk.injEq _ _ _ _ ▸ hr with ⟨rfl, rfl⟩
    rfl
  | cons e es ih =>
    intro a a' out hr ha
    simp only [absRun] at hr
    rcases h1 : absStep t d u e a with _ | ⟨a1, o1⟩ <;> rw [h1] at hr <;>
      dsimp only at hr
    · simp at hr
    · rcases h2 : absRun t d u es a1 with _ | ⟨a2, o2⟩ <;> rw [h2] at hr <;>
        dsimp only at hr
      · simp at hr
      · simp only [Option.some.injEq] at hr
        rcases Prod.mk.injEq _ _ _ _ ▸ hr with ⟨rfl, rfl⟩
        rcases absStep_out_class t d u e a a1 o1 h1 with ⟨hsd, hns⟩ | ⟨hsd, hsl⟩
        · rw [stopLastB_append_noStop d o1 o2 hns]
          exact ih a1 a2 o2 h2 hsd
        · obtain ⟨rfl, rfl⟩ := absRun_sdone t d u es a1 a2 o2 hsd h2
          simpa using hsl

/-- `noRecvAtB` means no delivery is a member. -/
lemma noRecvAtB_not_mem (d : Nat) (l : List (GEv β)) (h : noRecvAtB d l = true)
    (b : β) : GEv.toDrain d (.receive b) ∉ l := by
  intro hmem
  have := List.all_eq_true.mp h _ hmem
  simp at this

/-- One unfolding of `stopLastB`. -/
lemma stopLastB_cons (d : Nat) (e : GEv β) (tl : List (GEv β)) :
    stopLastB d (e :: tl) =
      ((match e with
        | GEv.toDrain d2 (.flowStopped _) => !(d2 == d) || noRecvAtB d tl
        | _ => true) && stopLastB d tl) := rfl

/-- `stopLastB` gives the split formulation: after a stop notification
on `d`, no further delivery on `d` occurs. -/
lemma stopLastB_split (d : Nat) :
    ∀ (l l1 l2 : List (GEv β)) (r : Rsn), stopLastB d l = true →
      l = l1 ++ GEv.toDrain d (.flowStopped r) :: l2 →
      ∀ b, GEv.toDrain d (.receive b) ∉ l2 := by
  intro l l1
  induction l1 generalizing l with
  | nil =>
    intro l2 r hl heq b
    subst heq
    rw [List.nil_append, stopLastB_cons] at hl
    simp only [beq_self_eq_true, Bool.not_true, Bool.false_or,
      Bool.and_eq_true] at hl
    exact noRecvAtB_not_mem d l2 hl.1 b
  | cons x l1 ih =>
    intro l2 r hl heq b
    subst heq
    rw [List.cons_append, stopLastB_cons] at hl
    simp only [Bool.and_eq_true] at hl
    exact ih _ l2 r hl.2 rfl b

/-- C5: after `flowStopped(reason)` is received on the engine's drain,
the downstream drain receives the `flowStopped` notification only after
every item buffered in the pending sequence has first been delivered:
in the calls a well-formed run makes on the environment, no delivery to
the downstream drain ever follows a stop notification to it -- the stop
notification never overtakes buffered data, including data still pending
behind an unresolved Deferred. -/
theorem c5_stop_after_buffer (t : Tube α β) (d u : Nat)
    (evs : List (InEv α β)) (a' : Abs β) (out : List (GEv β)) (w : W β)
    (hwf : absRun t d u evs ⟨none, none, false⟩ = some (a', out))
    (hI : Inv d u ⟨none, none, false⟩ w) :
    (runIn t evs w).trace = w.trace ++ out ∧
      ∀ (l1 l2 : List (GEv β)) (r : Rsn),
        out = l1 ++ GEv.toDrain d (.flowStopped r) :: l2 →
        ∀ b, GEv.toDrain d (.receive b) ∉ l2 := by
  obtain ⟨hI', htr⟩ := run_sim t d u evs _ a' out w hwf hI
  refine ⟨htr, ?_⟩
  intro l1 l2 r heq b
  exact stopLastB_split d out l1 l2 r
    (absRun_stopLast t d u evs _ a' out hwf rfl) heq b

/-- C5 witness: a receive leaves an item pending behind a Deferred; the
stop hook buffers one more item; the stop notification arrives last. -/
theorem c5_stop_after_buffer_witness :
    (runIn wTube [.recv 1, .fire (.item 7), .stop (.ext 3)] wWorld).trace =
      wWorld.trace ++
        [.toDrain 0 (.receive 1), .onUp 1 .pauseFlow, .toDrain 0 (.receive 7),
         .toDrain 0 (.receive 11), .onUp 1 .unpause, .toDrain 0 (.receive 99),
         .toDrain 0 (.flowStopped (.ext 3))] ∧
      ∀ (l1 l2 : List (GEv Nat)) (r : Rsn),
        [GEv.toDrain 0 (.receive 1), .onUp 1 .pauseFlow,
         .toDrain 0 (.receive 7), .toDrain 0 (.receive 11), .onUp 1 .unpause,
         .toDrain 0 (.receive 99), .toDrain 0 (.flowStopped (.ext 3))] =
          l1 ++ GEv.toDrain 0 (.flowStopped r) :: l2 →
        ∀ b, GEv.toDrain 0 (.receive b) ∉ l2 :=
  c5_stop_after_buffer wTube 0 1 [.recv 1, .fire (.item 7), .stop (.ext 3)]
    ⟨none, some (.ext 3), true⟩
    [.toDrain 0 (.receive 1), .onUp 1 .pauseFlow, .toDrain 0 (.receive 7),
     .toDrain 0 (.receive 11), .onUp 1 .unpause, .toDrain 0 (.receive 99),
     .toDrain 0 (.flowStopped (.ext 3))]
    wWorld (by decide) (by decide)

/-- C6: the engine holds a single optional pending-sequence slot, so at
most one pending sequence exists at any time; invoking any hook through
the delivery path (`_deliverFrom`, reached from `receive`,
`flowStopped` and the first-attachment `started` call) while a pending
sequence is still live is a fatal internal-consistency violation: the
assert at the head of the delivery path fires before the hook is
invoked, producing an uncaught exception and no other effect -- not a
recoverable condition. -/
theorem c6_single_pending_assert (h : HookRes β) (w : W β) (p : Pending β)
    (hc : w.crashed = none) (hp : w.s.pendingIterator = some p) :
    deliverFrom h w = crash .assertFailed w ∧
      (deliverFrom h w).crashed = some .assertFailed ∧
      (deliverFrom h w).s = w.s ∧ (deliverFrom h w).trace = w.trace := by
  have h1 : deliverFrom h w = crash .assertFailed w := by
    simp [deliverFrom, hc, hp]
  exact ⟨h1, by rw [h1]; rfl, by rw [h1]; rfl, by rw [h1]; rfl⟩

/-- C6 witness: delivering while an (empty) pending sequence is still
live fires the assert. -/
theorem c6_single_pending_assert_witness :
    deliverFrom (.ret none)
        ({ s := { pendingIterator := some ⟨[], none⟩ } } : W Nat) =
      crash .assertFailed
        ({ s := { pendingIterator := some ⟨[], none⟩ } } : W Nat) :=
  (c6_single_pending_assert (.ret none)
    ({ s := { pendingIterator := some ⟨[], none⟩ } } : W Nat)
    ⟨[], none⟩ rfl rfl).1

/-- C3: when a hook invocation raises (every hook -- `started`,
`received` and `stopped` -- is invoked through `_deliverFrom`), the
failure is logged, `stopFlow` is invoked exactly once on the engine's
upstream fount, the downstream drain (if attached) receives exactly one
`flowStopped` call carrying that failure, and no exception escapes to
the original caller (`crashed` stays `none`); `receive` is literally
this delivery path applied to the `received` hook. -/
theorem c3_hook_failure (e : Nat) (u : Nat) (w : W β)
    (hc : w.crashed = none) (hpend : w.s.pendingIterator = none)
    (hf : w.s.fount = some (.up u)) :
    deliverFrom (.raises e) w =
      { w with
        trace := w.trace ++ [GEv.logged e, .onUp u .stopFlow] ++
          (match w.s.drain with
           | some d => [GEv.toDrain d (.flowStopped (.failure e))]
           | none => []) } ∧
      ∀ (t : Tube α β) (a : α), t.received a = .raises e →
        receive t a w = deliverFrom (.raises e) w := by
  constructor
  · obtain ⟨⟨cp, pbpc, pend, fws, es, pbnd, ub, srsn, fp, dr, ft, wf, sc⟩, tr, cr⟩ := w
    simp only at hc hpend hf
    subst hc hpend hf
    cases dr <;> simp [deliverFrom, logErr, sfStopFlow, emitUp, emitD,
      List.append_assoc]
  · intro t a hrec
    rw [receive_eq t a w hc, hrec]

/-- C3 witness: a `received` hook raising exception 13 on an attached
engine. -/
theorem c3_hook_failure_witness :
    deliverFrom (.raises 13) wWorld =
      { wWorld with
        trace := wWorld.trace ++ [GEv.logged 13, .onUp 1 .stopFlow] ++
          [GEv.toDrain 0 (.flowStopped (.failure 13))] } ∧
      ∀ (t : Tube Nat Nat) (a : Nat), t.received a = .raises 13 →
        receive t a wWorld = deliverFrom (.raises 13) wWorld := by
  have h := c3_hook_failure (β := Nat) (α := Nat) 13 1 wWorld (by decide)
    (by decide) (by decide)
  exact ⟨by rw [h.1]; decide, h.2⟩

/-- `unpauseTok` only appends to the trace. -/
lemma unpauseTok_s (tok : UpTok) (w : W β) : (unpauseTok tok w).s = w.s := by
  cases tok <;> rfl

/-- `unpauseTok` never crashes. -/
lemma unpauseTok_crashed (tok : UpTok) (w : W β) :
    (unpauseTok tok w).crashed = w.crashed := by
  cases tok <;> rfl

/-- Delivery with no drain attached on an otherwise quiescent engine
self-pauses and buffers without crashing; the recorded upstream and the
absent drain are untouched. -/
lemma deliverFrom_noDrain_ok (h : HookRes β) (u : Nat) (w : W β)
    (hc : w.crashed = none) (hpend : w.s.pendingIterator = none)
    (hf : w.s.fount = some (.up u)) (hdr : w.s.drain = none)
    (hpbnd : w.s.pauseBecauseNoDrain = false)
    (hcp : w.s.currentlyPaused = false) (hfp : w.s.fountPauses = 0)
    (hub : w.s.unbuffering = false) :
    (deliverFrom h w).crashed = none ∧
      (deliverFrom h w).s.fount = some (.up u) ∧
      (deliverFrom h w).s.drain = none := by
  obtain ⟨⟨cp, pbpc, pend, fws, es, pbnd, ub, srsn, fp, dr, ft, wf, sc⟩, tr, cr⟩ := w
  simp only at hc hpend hf hdr hpbnd hcp hfp hub
  subst hc hpend hf hdr hpbnd hcp hfp hub
  rcases h with e0 | (_ | ⟨l, fz⟩)
  · simp [deliverFrom, logErr, sfStopFlow, emitUp]
  · simp [deliverFrom]
  · cases pbpc <;>
      simp [deliverFrom, fountPauseFlow, actuallyPause, sfPauseFlow, emitUp,
        unbufferIterator, unbufferLoop_paused]

/-- C9: attaching a fount whose produced type tag is present to the
engine's drain whose accepted type tag is present fails with a
TypeError at attach time -- before the upstream is recorded, before
`started` can run and before any item is delivered (the state is
entirely unchanged apart from the crash flag) -- when the accepted tag
does not accept the produced tag; when either tag is absent no type
check is performed and the attach succeeds, recording the upstream. -/
theorem c9_attach_type_check (t : Tube α β) (ioe : Nat → Nat → Bool)
    (uot : Nat → Option Nat) (u : Nat) :
    (∀ (w : W β) (out inT : Nat), w.crashed = none →
        uot u = some out → t.inputType = some inT → ioe inT out = false →
        drainFlowingFrom t ioe uot (some (.up u)) w =
          crash .typeMismatch w) ∧
    (∀ (w : W β), w.crashed = none → w.s.pendingIterator = none →
        w.s.drain = none → w.s.pauseBecauseNoDrain = false →
        w.s.currentlyPaused = false → w.s.fountPauses = 0 →
        w.s.unbuffering = false →
        (uot u = none ∨ t.inputType = none) →
        (drainFlowingFrom t ioe uot (some (.up u)) w).crashed = none ∧
          (drainFlowingFrom t ioe uot (some (.up u)) w).s.fount =
            some (.up u)) := by
  constructor
  · intro w out inT hc huot hin hioe
    simp [drainFlowingFrom, hc, sfOutputType, huot, hin, hioe]
  · intro w hc hpend hdr hpbnd hcp hfp hub h9
    have hbad : (match sfOutputType uot (.up u), t.inputType with
        | some out, some inT => ! ioe inT out
        | _, _ => false) = false := by
      rcases h9 with h9 | h9
      · simp [sfOutputType, h9]
      · rcases huot : uot u with _ | out <;> simp [sfOutputType, h9, huot]
    obtain ⟨⟨cp, pbpc, pend, fws, es, pbnd, ub, srsn, fp, dr, ft, wf, sc⟩, tr, cr⟩ := w
    simp only at hc hpend hdr hpbnd hcp hfp hub
    subst hc hpend hdr hpbnd hcp hfp hub
    rcases hst : t.started with e0 | (_ | ⟨l, fz⟩) <;>
      cases pbpc <;> cases fws <;> cases es <;>
      simp [drainFlowingFrom, hbad, hst, deliverFrom, logErr, sfStopFlow,
        sfPauseFlow, unpauseTok_s, unpauseTok_crashed, emitUp, emitD,
        fountPauseFlow, actuallyPause, unbufferIterator, unbufferLoop_paused]

/-- C9 witness: both halves at concrete tags (produced tag 5, accepted
tag 3, a relation rejecting the pair; and an engine with no produced
tag). -/
theorem c9_attach_type_check_witness :
    (drainFlowingFrom wTubeTyped (fun _ _ => false) (fun _ => some 5)
        (some (.up 1)) ({ s := {} } : W Nat) =
      crash .typeMismatch ({ s := {} } : W Nat)) ∧
    ((drainFlowingFrom wTubeTyped (fun _ _ => false) (fun _ => none)
        (some (.up 1)) ({ s := {} } : W Nat)).crashed = none ∧
      (drainFlowingFrom wTubeTyped (fun _ _ => false) (fun _ => none)
        (some (.up 1)) ({ s := {} } : W Nat)).s.fount = some (.up 1)) :=
  ⟨(c9_attach_type_check wTubeTyped (fun _ _ => false) (fun _ => some 5)
      1).1 ({ s := {} } : W Nat) 5 3 (by decide) (by decide) (by decide)
      (by decide),
   (c9_attach_type_check wTubeTyped (fun _ _ => false) (fun _ => none)
      1).2 ({ s := {} } : W Nat) (by decide) (by decide) (by decide)
      (by decide) (by decide) (by decide) (by decide) (Or.inl (by decide))⟩

/-- One step of the drain loop on a Deferred head. -/
lemma unbufferLoop_cons_future (fz : Option Finalizer) (rest : List (TOut β))
    (w : W β) (hp : w.s.currentlyPaused = false) :
    unbufferLoop fz (.future :: rest) w =
      unbufferLoop fz rest
        { (fountPauseFlow w) with s.waitingFuture := true } := by
  rw [unbufferLoop]
  simp [hp]

/-- One step of the drain loop on a plain item head with a drain
attached. -/
lemma unbufferLoop_cons_item (fz : Option Finalizer) (rest : List (TOut β))
    (w : W β) (b : β) (d : Nat) (hp : w.s.currentlyPaused = false)
    (hd : w.s.drain = some d) :
    unbufferLoop fz (.item b :: rest) w =
      unbufferLoop fz rest (emitD d (.receive b) w) := by
  rw [unbufferLoop]
  simp [hp, hd]

/-- `fountPauseFlow` only appends to the trace and leaves drain,
upstream and start-tracking observables untouched. -/
lemma fountPauseFlow_frame (w : W β) :
    (∃ tl, (fountPauseFlow w).trace = w.trace ++ tl) ∧
      (fountPauseFlow w).s.drain = w.s.drain ∧
      (fountPauseFlow w).s.fount = w.s.fount ∧
      (fountPauseFlow w).crashed = w.crashed ∧
      escOf (fountPauseFlow w) = escOf w := by
  obtain ⟨⟨cp, pbpc, pend, fws, es, pbnd, ub, srsn, fp, dr, ft, wfl, sc⟩, tr, cr⟩ := w
  by_cases h0 : fp = 0
  · subst h0
    cases pbpc with
    | some tok =>
      exact ⟨⟨[], by simp [fountPauseFlow, actuallyPause]⟩,
        by simp [fountPauseFlow, actuallyPause],
        by simp [fountPauseFlow, actuallyPause],
        by simp [fountPauseFlow, actuallyPause],
        by simp [escOf, fountPauseFlow, actuallyPause]⟩
    | none =>
      rcases ft with _ | (u2 | _)
      · exact ⟨⟨[], by simp [fountPauseFlow, actuallyPause]⟩,
          by simp [fountPauseFlow, actuallyPause],
          by simp [fountPauseFlow, actuallyPause],
          by simp [fountPauseFlow, actuallyPause],
          by simp [escOf, fountPauseFlow, actuallyPause]⟩
      · exact ⟨⟨[GEv.onUp u2 .pauseFlow],
            by simp [fountPauseFlow, actuallyPause, sfPauseFlow, emitUp]⟩,
          by simp [fountPauseFlow, actuallyPause, sfPauseFlow, emitUp],
          by simp [fountPauseFlow, actuallyPause, sfPauseFlow, emitUp],
          by simp [fountPauseFlow, actuallyPause, sfPauseFlow, emitUp],
          by simp [escOf, fountPauseFlow, actuallyPause, sfPauseFlow, emitUp]⟩
      · exact ⟨⟨[], by simp [fountPauseFlow, actuallyPause, sfPauseFlow]⟩,
          by simp [fountPauseFlow, actuallyPause, sfPauseFlow],
          by simp [fountPauseFlow, actuallyPause, sfPauseFlow],
          by simp [fountPauseFlow, actuallyPause, sfPauseFlow],
          by simp [escOf, fountPauseFlow, actuallyPause, sfPauseFlow]⟩
  · exact ⟨⟨[], by simp [fountPauseFlow, h0]⟩,
      by simp [fountPauseFlow, h0], by simp [fountPauseFlow, h0],
      by simp [fountPauseFlow, h0], by simp [escOf, fountPauseFlow, h0]⟩

/-- The drain loop only appends to the trace and leaves the attached
drain, the recorded upstream and the start-tracking observables
untouched. -/
lemma unbufferLoop_frame (fz : Option Finalizer) :
    ∀ (l : List (TOut β)) (w : W β),
      (∃ tl, (unbufferLoop fz l w).trace = w.trace ++ tl) ∧
        (unbufferLoop fz l w).s.drain = w.s.drain ∧
        (unbufferLoop fz l w).s.fount = w.s.fount ∧
        escOf (unbufferLoop fz l w) = escOf w := by
  intro l
  induction l with
  | nil =>
    intro w
    cases hcp : w.s.currentlyPaused
    · rw [unbufferLoop]
      simp only [hcp, Bool.false_eq_true, if_false, runFin_eq]
      cases hsr : w.s.flowStoppingReason with
      | none => exact ⟨⟨finEvs fz, by simp⟩, by simp, by simp, by simp [escOf]⟩
      | some r =>
        cases hdr : w.s.drain with
        | some d =>
          simp only [hdr]
          refine ⟨⟨finEvs fz ++ [GEv.toDrain d (.flowStopped r)], ?_⟩,
            by simp [emitD, hdr], by simp [emitD], by simp [escOf, emitD]⟩
          simp [emitD, List.append_assoc]
        | none =>
          simp only [hdr]
          exact ⟨⟨finEvs fz, by simp [crash]⟩, by simp [crash, hdr],
            by simp [crash], by simp [escOf, crash]⟩
    · rw [unbufferLoop_paused fz [] w hcp]
      exact ⟨⟨[], by simp⟩, by simp, by simp, by simp [escOf]⟩
  | cons v rest ih =>
    intro w
    cases hcp : w.s.currentlyPaused
    · cases v with
      | item b =>
        cases hdr : w.s.drain with
        | some d =>
          rw [unbufferLoop_cons_item fz rest w b d hcp hdr]
          obtain ⟨⟨tl, htl⟩, hdr2, hft2, hesc2⟩ := ih (emitD d (.receive b) w)
          refine ⟨⟨[GEv.toDrain d (.receive b)] ++ tl, ?_⟩, ?_, ?_, ?_⟩
          · rw [htl]
            simp [emitD, List.append_assoc]
          · rw [hdr2]
            simp [emitD, hdr]
          · rw [hft2]
            simp [emitD]
          · rw [hesc2]
            simp [escOf, emitD]
        | none =>
          rw [unbufferLoop]
          simp only [hcp, Bool.false_eq_true, if_false, hdr]
          exact ⟨⟨[], by simp [crash]⟩, by simp [crash, hdr], by simp [crash],
            by simp [escOf, crash]⟩
      | future =>
        rw [unbufferLoop_cons_future fz rest w hcp]
        obtain ⟨⟨tl, htl⟩, hdr2, hft2, hesc2⟩ :=
          ih { (fountPauseFlow w) with s.waitingFuture := true }
        obtain ⟨⟨tl0, htl0⟩, hdr0, hft0, _, hesc0⟩ := fountPauseFlow_frame w
        refine ⟨⟨tl0 ++ tl, ?_⟩, ?_, ?_, ?_⟩
        · rw [htl]
          simp [htl0]
        · rw [hdr2]
          simpa using hdr0
        · rw [hft2]
          simpa using hft0
        · rw [hesc2]
          simpa [escOf] using Prod.mk.injEq _ _ _ _ ▸ hesc0
    · rw [unbufferLoop_paused fz (v :: rest) w hcp]
      exact ⟨⟨[], by simp⟩, by simp, by simp, by simp [escOf]⟩

/-- `unbufferIterator` only appends to the trace; drain, upstream and
start observables are untouched. -/
lemma unbufferIterator_frame (w : W β) :
    (∃ tl, (unbufferIterator w).trace = w.trace ++ tl) ∧
      (unbufferIterator w).s.drain = w.s.drain ∧
      (unbufferIterator w).s.fount = w.s.fount ∧
      escOf (unbufferIterator w) = escOf w := by
  rw [unbufferIterator]
  by_cases h1 : w.crashed.isSome = true
  · rw [if_pos h1]
    exact ⟨⟨[], by simp⟩, rfl, rfl, rfl⟩
  · rw [if_neg h1]
    by_cases h2 : w.s.unbuffering = true
    · rw [if_pos h2]
      exact ⟨⟨[], by simp⟩, rfl, rfl, rfl⟩
    · rw [if_neg h2]
      rcases hp : w.s.pendingIterator with _ | p
      · exact ⟨⟨[], by simp⟩, rfl, rfl, rfl⟩
      · obtain ⟨⟨tl, htl⟩, hdr, hft, hesc⟩ :=
          unbufferLoop_frame p.onExhaust p.items { w with s.unbuffering := true }
        dsimp only
        refine ⟨⟨tl, ?_⟩, ?_, ?_, ?_⟩
        · split
          · exact htl
          · exact htl
        · split
          · exact hdr
          · exact hdr
        · split
          · exact hft
          · exact hft
        · split
          · exact hesc
          · exact hesc

/-- `actuallyResume` only appends to the trace; drain, upstream and
start observables are untouched. -/
lemma actuallyResume_frame (w : W β) :
    (∃ tl, (actuallyResume w).trace = w.trace ++ tl) ∧
      (actuallyResume w).s.drain = w.s.drain ∧
      (actuallyResume w).s.fount = w.s.fount ∧
      escOf (actuallyResume w) = escOf w := by
  rw [actuallyResume_eq]
  obtain ⟨⟨tl, htl⟩, hdr, hft, hesc⟩ :=
    unbufferIterator_frame { w with s.currentlyPaused := false }
  simp only []
  by_cases h1 : (unbufferIterator
      { w with s.currentlyPaused := false }).crashed.isSome = true
  · rw [if_pos h1]
    exact ⟨⟨tl, by simpa using htl⟩, by simpa using hdr, by simpa using hft,
      by simpa [escOf] using hesc⟩
  · rw [if_neg h1]
    by_cases h2 : (unbufferIterator
        { w with s.currentlyPaused := false }).s.currentlyPaused = true
    · rw [if_pos h2]
      exact ⟨⟨tl, by simpa using htl⟩, by simpa using hdr, by simpa using hft,
        by simpa [escOf] using hesc⟩
    · rw [if_neg h2]
      rcases hp : (unbufferIterator
          { w with s.currentlyPaused := false }).s.pauseBecausePauseCalled
        with _ | tok
      · simp only [hp]
        exact ⟨⟨tl, by simpa using htl⟩, by simpa using hdr,
          by simpa using hft, by simpa [escOf] using hesc⟩
      · simp only [hp]
        cases tok with
        | real u2 =>
          refine ⟨⟨tl ++ [GEv.onUp u2 .unpause], ?_⟩, ?_, ?_, ?_⟩
          · simp only [unpauseTok, emitUp]
            simp only at htl
            simp [htl, List.append_assoc]
          · rw [unpauseTok_s]
            simpa using hdr
          · rw [unpauseTok_s]
            simpa using hft
          · simp only [escOf, unpauseTok_s]
            simpa [escOf] using hesc
        | placeholder =>
          refine ⟨⟨tl, ?_⟩, ?_, ?_, ?_⟩
          · simp only [unpauseTok]
            simpa using htl
          · rw [unpauseTok_s]
            simpa using hdr
          · rw [unpauseTok_s]
            simpa using hft
          · simp only [escOf, unpauseTok_s]
            simpa [escOf] using hesc

/-- `fountUnpause` only appends to the trace; drain, upstream and start
observables are untouched. -/
lemma fountUnpause_frame (w : W β) :
    (∃ tl, (fountUnpause w).trace = w.trace ++ tl) ∧
      (fountUnpause w).s.drain = w.s.drain ∧
      (fountUnpause w).s.fount = w.s.fount ∧
      escOf (fountUnpause w) = escOf w := by
  rw [fountUnpause]
  simp only []
  by_cases h1 : w.s.fountPauses - 1 = 0
  · rw [if_pos h1]
    obtain ⟨⟨tl, htl⟩, hdr, hft, hesc⟩ :=
      actuallyResume_frame { w with s.fountPauses := w.s.fountPauses - 1 }
    exact ⟨⟨tl, by simpa using htl⟩, by simpa using hdr, by simpa using hft,
      by simpa [escOf] using hesc⟩
  · rw [if_neg h1]
    exact ⟨⟨[], by simp⟩, rfl, rfl, rfl⟩

/-- C10: on a Source endpoint with a drain already attached, `flowTo`
to a new drain first notifies the old drain with `flowingFrom(None)`
and only then announces itself to the new drain (recording it);
`flowTo(None)` notifies the old drain, clears the attachment and
returns immediately: the no-drain pause token is not released, the
pending sequence is untouched and no draining happens (the state is
unchanged apart from the cleared drain slot). -/
theorem c10_flowTo_detach (w : W β) (hc : w.crashed = none) :
    (∀ (old newD : Nat), w.s.drain = some old →
        (fountFlowTo (some newD) w).s.drain = some newD ∧
        ∃ tl, (fountFlowTo (some newD) w).trace =
          w.trace ++ [GEv.toDrain old (.flowingFrom .detached),
                      .toDrain newD (.flowingFrom .siphon)] ++ tl) ∧
      fountFlowTo none w =
        { w with
          s.drain := none,
          trace := w.trace ++
            (match w.s.drain with
             | some old => [GEv.toDrain old (.flowingFrom .detached)]
             | none => []) } := by
  constructor
  · intro old newD hdr
    rw [fountFlowTo]
    rw [if_neg (by simp [hc])]
    simp only [hdr]
    set w1 := emitD newD (.flowingFrom .siphon)
      { (emitD old (.flowingFrom .detached) w) with s.drain := some newD }
      with hw1
    have hw1dr : w1.s.drain = some newD := by simp [hw1, emitD]
    have hw1tr : w1.trace =
        w.trace ++ [GEv.toDrain old (.flowingFrom .detached),
          .toDrain newD (.flowingFrom .siphon)] := by
      simp [hw1, emitD]
    by_cases h2 : w1.s.pauseBecauseNoDrain = true
    · rw [if_pos h2]
      obtain ⟨⟨tl0, htl0⟩, hdr0, _, _⟩ :=
        fountUnpause_frame { w1 with s.pauseBecauseNoDrain := false }
      set w2 := fountUnpause { w1 with s.pauseBecauseNoDrain := false }
        with hw2
      by_cases h3 : w2.crashed.isSome = true
      · rw [if_pos h3]
        refine ⟨by rw [hdr0]; simpa using hw1dr, ⟨tl0, ?_⟩⟩
        rw [htl0]
        simp [hw1tr]
      · rw [if_neg h3]
        obtain ⟨⟨tl1, htl1⟩, hdr1, _, _⟩ := unbufferIterator_frame w2
        refine ⟨by rw [hdr1, hdr0]; simpa using hw1dr, ⟨tl0 ++ tl1, ?_⟩⟩
        rw [htl1, htl0]
        simp [hw1tr, List.append_assoc]
    · rw [if_neg h2]
      by_cases h3 : w1.crashed.isSome = true
      · rw [if_pos h3]
        exact ⟨hw1dr, ⟨[], by simp [hw1tr]⟩⟩
      · rw [if_neg h3]
        obtain ⟨⟨tl1, htl1⟩, hdr1, _, _⟩ := unbufferIterator_frame w1
        refine ⟨by rw [hdr1]; exact hw1dr, ⟨tl1, ?_⟩⟩
        rw [htl1]
        simp [hw1tr, List.append_assoc]
  · rw [fountFlowTo]
    rw [if_neg (by simp [hc])]
    rcases hdr : w.s.drain with _ | old
    · simp [emitD]
    · simp [emitD]

/-- C10 witness: re-targeting an attached engine, and detaching it. -/
theorem c10_flowTo_detach_witness :
    ((fountFlowTo (some 2) wWorld).s.drain = some 2 ∧
      ∃ tl, (fountFlowTo (some 2) wWorld).trace =
        wWorld.trace ++ [GEv.toDrain 0 (.flowingFrom .detached),
          .toDrain 2 (.flowingFrom .siphon)] ++ tl) ∧
    fountFlowTo none wWorld =
      { wWorld with
        s.drain := none,
        trace := wWorld.trace ++ [GEv.toDrain 0 (.flowingFrom .detached)] } := by
  have h := c10_flowTo_detach wWorld (by decide)
  refine ⟨h.1 0 2 (by decide), ?_⟩
  rw [h.2]
  decide

/-- C7: when a hook's non-None result is buffered while no downstream
drain is attached, the engine issues itself a pause token (recorded in
`pauseBecauseNoDrain`), propagating a pause to its upstream fount, and
delivers nothing; the token is released in `flowTo` at the moment a
downstream drain attaches, after which draining proceeds and the
buffered items are delivered. -/
theorem c7_noDrain_pause (t : Tube α β) (a : α) (u d : Nat) (bs : List β)
    (w : W β) (hc : w.crashed = none) (hdr : w.s.drain = none)
    (hpend : w.s.pendingIterator = none)
    (hpbnd : w.s.pauseBecauseNoDrain = false)
    (hcp : w.s.currentlyPaused = false) (hfp : w.s.fountPauses = 0)
    (hpbpc : w.s.pauseBecausePauseCalled = none)
    (hub : w.s.unbuffering = false) (hsr : w.s.flowStoppingReason = none)
    (hf : w.s.fount = some (.up u))
    (hrec : t.received a = .ret (some ⟨bs.map .item, none⟩)) :
    receive t a w =
      { w with
        s.currentlyPaused := true,
        s.pauseBecausePauseCalled := some (.real u),
        s.pendingIterator := some ⟨bs.map .item, none⟩,
        s.pauseBecauseNoDrain := true,
        s.fountPauses := 1,
        trace := w.trace ++ [GEv.onUp u .pauseFlow] } ∧
    fountFlowTo (some d)
        { w with
          s.currentlyPaused := true,
          s.pauseBecausePauseCalled := some (.real u),
          s.pendingIterator := some ⟨bs.map .item, none⟩,
          s.pauseBecauseNoDrain := true,
          s.fountPauses := 1,
          trace := w.trace ++ [GEv.onUp u .pauseFlow] } =
      { w with
        s.drain := some d,
        trace := w.trace ++ [GEv.onUp u .pauseFlow,
            .toDrain d (.flowingFrom .siphon)] ++ recvEvs d bs ++
          [GEv.onUp u .unpause] } := by
  obtain ⟨⟨cp, pbpc, pend, fws, es, pbnd, ub, srsn, fp, dr, ft, wf, sc⟩, tr, cr⟩ := w
  simp only at hc hdr hpend hpbnd hcp hfp hpbpc hub hsr hf
  subst hc hdr hpend hpbnd hcp hfp hpbpc hub hsr hf
  constructor
  · rw [receive_eq t a _ rfl, hrec]
    simp [deliverFrom, fountPauseFlow, actuallyPause, sfPauseFlow, emitUp,
      unbufferIterator, unbufferLoop_paused]
  · rw [fountFlowTo]
    rw [if_neg (by simp)]
    dsimp only [emitD]
    rw [if_pos rfl]
    rw [fountUnpause_one _ rfl]
    rw [actuallyResume_eq]
    rw [unbufferIterator_run _ ⟨bs.map .item, none⟩ rfl rfl rfl]
    rw [unbufferLoop_exhaust none d (bs.map .item) bs (drainAbs_items bs) _
      rfl rfl rfl]
    simp [unpauseTok, emitUp, emitD, unbufferIterator, finEvs,
      List.append_assoc]

/-- C7 witness: two buffered items delivered only after a drain
attaches. -/
theorem c7_noDrain_pause_witness :
    receive wTubeItems 4 ({ s := { fount := some (.up 1) } } : W Nat) =
      { ({ s := { fount := some (.up 1) } } : W Nat) with
        s.currentlyPaused := true,
        s.pauseBecausePauseCalled := some (.real 1),
        s.pendingIterator := some ⟨[TOut.item 4, TOut.item 5], none⟩,
        s.pauseBecauseNoDrain := true,
        s.fountPauses := 1,
        trace := [GEv.onUp 1 .pauseFlow] } ∧
    fountFlowTo (some 0)
        { ({ s := { fount := some (.up 1) } } : W Nat) with
          s.currentlyPaused := true,
          s.pauseBecausePauseCalled := some (.real 1),
          s.pendingIterator := some ⟨[TOut.item 4, TOut.item 5], none⟩,
          s.pauseBecauseNoDrain := true,
          s.fountPauses := 1,
          trace := [GEv.onUp 1 .pauseFlow] } =
      { ({ s := { fount := some (.up 1) } } : W Nat) with
        s.drain := some 0,
        trace := [GEv.onUp 1 .pauseFlow, .toDrain 0 (.flowingFrom .siphon)] ++
          recvEvs 0 [4, 5] ++ [GEv.onUp 1 .unpause] } := by
  have h := c7_noDrain_pause wTubeItems 4 1 0 [4, 5]
    ({ s := { fount := some (.up 1) } } : W Nat) (by decide) (by decide)
    (by decide) (by decide) (by decide) (by decide) (by decide) (by decide)
    (by decide) (by decide) (by decide)
  exact ⟨h.1.trans (by decide), h.2.trans (by decide)⟩

/-- Pausing more while pauses are outstanding neither fires callbacks
nor touches existing tokens. -/
lemma pauseN_pos : ∀ (n : Nat) (p : PauserSt), 0 < p.pauses →
    pauseN n p =
      { pauses := p.pauses + n, tokens := p.tokens ++ List.replicate n true,
        events := p.events } := by
  intro n
  induction n with
  | zero => intro p h; simp [pauseN]
  | succ n ih =>
    intro p h
    rw [pauseN]
    have hne : ¬ p.pauses = 0 := by omega
    rw [show (pauseFlow p).1 =
        { pauses := p.pauses + 1, tokens := p.tokens ++ [true],
          events := p.events } from by simp [pauseFlow, hne]]
    rw [ih _ (by simp)]
    simp [List.replicate_succ, List.append_assoc]
    omega

/-- `N` fresh pauses from the empty pauser: `onFirstPause` fires exactly
at the first, and the count is `N` with `N` live tokens. -/
lemma pauseN_init (N : Nat) (hN : 1 ≤ N) : pauseN N {} = midSt N [] := by
  obtain ⟨n, rfl⟩ : ∃ n, N = n + 1 := ⟨N - 1, by omega⟩
  rw [pauseN]
  rw [show (pauseFlow {}).1 =
      { pauses := 1, tokens := [true], events := [.firstPause] } from by
    simp [pauseFlow]]
  rw [pauseN_pos n _ (by simp)]
  simp only [midSt]
  congr 1
  · simp
    omega
  · rw [show (List.range (n + 1)).map
        (fun i => ! List.contains ([] : List Nat) i) =
        List.replicate (n + 1) true from by
      simp [List.map_const', List.length_range]]
    simp [List.replicate_succ]
  · simp

/-- Setting an entry of a mapped range. -/
lemma map_range_set (N i : Nat) (f : Nat → Bool) (b : Bool) (_h : i < N) :
    ((List.range N).map f).set i b =
      (List.range N).map fun j => if j = i then b else f j := by
  apply List.ext_getElem
  · simp
  · intro n h1 h2
    simp only [List.getElem_set, List.getElem_map, List.getElem_range]
    by_cases hn : i = n
    · simp [hn]
    · rw [if_neg hn, if_neg (fun h => hn h.symm)]

/-- Reading an entry of a mapped range. -/
lemma map_range_getD (N i : Nat) (f : Nat → Bool) (h : i < N) :
    ((List.range N).map f).getD i false = f i := by
  rw [List.getD_eq_getElem?_getD]
  simp [List.getElem?_map, List.getElem?_range, h]

/-- Releasing a live token: the count drops by one, `onLastResume`
fires exactly when the released token was the last outstanding one, and
the token dies. -/
lemma unpause_mid (N : Nat) (S : List Nat) (i : Nat) (hiN : i < N)
    (hiS : S.contains i = false) (hlen : S.length < N) :
    unpause (midSt N S) i = some (midSt N (S ++ [i])) := by
  have htok : (midSt N S).tokens.getD i false = true := by
    simp only [midSt]
    rw [map_range_getD N i _ hiN]
    simp only [hiS, Bool.not_false]
  rw [unpause, if_pos htok]
  simp only [midSt]
  by_cases hN2 : N - S.length - 1 = 0
  · rw [if_pos hN2]
    refine congrArg some ?_
    dsimp only
    rw [map_range_set N i _ false hiN, if_pos hlen]
    have hlast : ¬ (S ++ [i]).length < N := by
      simp
      omega
    congr 1
    · simp
      omega
    · apply List.map_congr_left
      intro j hj
      by_cases hji : j = i <;> simp [hji]
    · rw [if_neg hlast]
      simp
  · rw [if_neg hN2]
    refine congrArg some ?_
    dsimp only
    rw [map_range_set N i _ false hiN, if_pos hlen]
    have hlast : (S ++ [i]).length < N := by
      simp
      omega
    congr 1
    · simp
      omega
    · apply List.map_congr_left
      intro j hj
      by_cases hji : j = i <;> simp [hji]
    · rw [if_pos hlast]

/-- Releasing a list of distinct live tokens succeeds step by step. -/
lemma unpauseAll_mid (N : Nat) : ∀ (l S : List Nat),
    (S ++ l).Nodup → (∀ j ∈ S ++ l, j < N) → (S ++ l).length ≤ N →
    unpauseAll l (midSt N S) = some (midSt N (S ++ l)) := by
  intro l
  induction l with
  | nil => intro S _ _ _; simp [unpauseAll]
  | cons i l2 ih =>
    intro S hnd hmem hlen
    rw [unpauseAll]
    rw [unpause_mid N S i (hmem i (by simp)) ?_ ?_]
    · dsimp only
      rw [ih (S ++ [i]) (by simpa [List.append_assoc] using hnd)
        (by intro j hj; exact hmem j (by simpa [List.append_assoc] using hj))
        (by simpa [List.append_assoc] using hlen)]
      simp [List.append_assoc]
    · have hdisj := (List.nodup_append.mp hnd).2.2
      have : i ∉ S := fun hin => hdisj hin (by simp)
      simpa using this
    · have := hlen
      simp at this
      omega

/-- C4: on a fresh pause manager, `pauseFlow` called `N >= 1` times
invokes `onFirstPause` exactly at the 0-to-1 transition (once), and
releasing the `N` returned tokens once each, in any order, never
invokes `onLastResume` before the `N`-th release and invokes it exactly
at the `N`-th; a second `unpause` of any token then raises
`AlreadyUnpaused` (modelled as `none`). -/
theorem c4_pause_resume (N : Nat) (hN : 1 ≤ N) (perm : List Nat)
    (hperm : perm.Perm (List.range N)) :
    (pauseN N {}).events = [.firstPause] ∧ (pauseN N {}).pauses = N ∧
    (∀ pre suf, perm = pre ++ suf → suf ≠ [] →
      unpauseAll pre (pauseN N {}) = some (midSt N pre) ∧
        (midSt N pre).events = [.firstPause]) ∧
    (unpauseAll perm (pauseN N {}) = some (midSt N perm) ∧
      (midSt N perm).events = [.firstPause, .lastResume] ∧
      ∀ i, i < N → unpause (midSt N perm) i = none) := by
  have hnd : perm.Nodup := hperm.nodup_iff.2 (List.nodup_range N)
  have hmem : ∀ j ∈ perm, j < N := by
    intro j hj
    have := hperm.mem_iff.1 hj
    simpa [List.mem_range] using this
  have hlenp : perm.length = N := by
    simpa [List.length_range] using hperm.length_eq
  have hN0 : ¬ N = 0 := by omega
  refine ⟨by rw [pauseN_init N hN]; simp [midSt, hN0],
    by rw [pauseN_init N hN]; simp [midSt], ?_, ?_, ?_, ?_⟩
  · intro pre suf heq hsuf
    subst heq
    have hpre : pre.length < N := by
      rcases suf with _ | ⟨x, suf⟩
      · exact absurd rfl hsuf
      · have := hlenp
        simp at this
        omega
    have hndpre : pre.Nodup :=
      List.Nodup.sublist (List.sublist_append_left pre suf) hnd
    constructor
    · rw [pauseN_init N hN]
      refine unpauseAll_mid N pre [] (by simpa using hndpre) ?_ ?_
      · intro j hj
        simp at hj
        exact hmem j (by simp [hj])
      · simpa using Nat.le_of_lt hpre
    · simp [midSt, hpre]
  · rw [pauseN_init N hN]
    refine unpauseAll_mid N perm [] (by simpa using hnd) ?_ ?_
    · intro j hj
      simp at hj
      exact hmem j hj
    · simp [hlenp]
  · simp [midSt, hlenp]
  · intro i hi
    rw [unpause]
    rw [if_neg]
    simp only [midSt]
    rw [map_range_getD N i _ hi]
    have : perm.contains i = true := by
      have : i ∈ perm := hperm.mem_iff.2 (by simpa [List.mem_range] using hi)
      simpa using this
    rw [this]
    simp

/-- C4 witness: two pauses released in the order token 1, token 0. -/
theorem c4_pause_resume_witness :
    ((pauseN 2 {}).events = [.firstPause] ∧ (pauseN 2 {}).pauses = 2 ∧
      (∀ pre suf, [1, 0] = pre ++ suf → suf ≠ [] →
        unpauseAll pre (pauseN 2 {}) = some (midSt 2 pre) ∧
          (midSt 2 pre).events = [.firstPause]) ∧
      (unpauseAll [1, 0] (pauseN 2 {}) = some (midSt 2 [1, 0]) ∧
        (midSt 2 [1, 0]).events = [.firstPause, .lastResume] ∧
        ∀ i, i < 2 → unpause (midSt 2 [1, 0]) i = none)) :=
  c4_pause_resume 2 (by decide) [1, 0] (by decide)

/-- C2: `divert` captures the engine's current pending sequence
(possibly none) and passes it to `reassemble`; the new sink receives --
after the attachment announcement of the replay stage -- exactly the
items `reassemble` returned, in order, each exactly once, and only
afterwards is the real upstream re-attached to the new sink
(`flowTo` / `flowingFrom`) and its replay-long pause released; the
upstream is paused (`pauseFlow`) before anything else happens, and the
friend engine's own state is not modified. -/
theorem c2_divert_replay
    (reassemble : Option (List (TOut β)) → Option (List β))
    (ioe : Nat → Nat → Bool) (uot : Nat → Option Nat) (newDrain u : Nat)
    (w : W β) (hc : w.crashed = none) (hf : w.s.fount = some (.up u)) :
    divert reassemble ioe uot newDrain w =
      { s := w.s,
        trace := w.trace ++ [GEv.onUp u .pauseFlow,
            .toDrain newDrain (.flowingFrom .siphon)] ++
          recvEvs newDrain
            ((reassemble (w.s.pendingIterator.map Pending.items)).getD []) ++
          [GEv.onUp u (.flowTo newDrain),
           .toDrain newDrain (.flowingFrom (.upstream u)),
           .onUp u .unpause],
        crashed := none } := by
  obtain ⟨⟨cp, pbpc, pend, fws, es, pbnd, ub, srsn, fp, dr, ft, wf, sc⟩, tr, cr⟩ := w
  simp only at hc hf
  subst hc hf
  rw [divert]
  rw [if_neg (by simp)]
  dsimp only [sfPauseFlow, emitUp]
  generalize hpp : (reassemble (Option.map Pending.items pend)).getD [] = pp
  rw [show drainFlowingFrom
      (β := β) (α := Unit)
      { received := fun _ => .ret none,
        started := .ret (some ⟨pp.map TOut.item, some ⟨.up u, newDrain⟩⟩) }
      ioe uot none
      { s := {}, trace := tr ++ [GEv.onUp u .pauseFlow], crashed := none } =
      { s := {}, trace := tr ++ [GEv.onUp u .pauseFlow], crashed := none }
    from by simp [drainFlowingFrom]]
  rw [show drainFlowingFrom
      (β := β) (α := Unit)
      { received := fun _ => .ret none,
        started := .ret (some ⟨pp.map TOut.item, some ⟨.up u, newDrain⟩⟩) }
      ioe uot (some .fakest)
      { s := {}, trace := tr ++ [GEv.onUp u .pauseFlow], crashed := none } =
      { s := { currentlyPaused := true,
               pauseBecausePauseCalled := some .placeholder,
               pendingIterator :=
                 some ⟨pp.map TOut.item, some ⟨.up u, newDrain⟩⟩,
               everStarted := true, pauseBecauseNoDrain := true,
               fountPauses := 1, fount := some .fakest, startedCount := 1 },
        trace := tr ++ [GEv.onUp u .pauseFlow], crashed := none }
    from by
      simp [drainFlowingFrom, sfOutputType, deliverFrom, fountPauseFlow,
        actuallyPause, sfPauseFlow, unbufferIterator, unbufferLoop_paused]]
  rw [fountFlowTo]
  rw [if_neg (by simp)]
  dsimp only [emitD]
  rw [if_pos rfl]
  rw [fountUnpause_one _ rfl]
  rw [actuallyResume_eq]
  rw [unbufferIterator_run _ ⟨pp.map TOut.item, some ⟨.up u, newDrain⟩⟩ rfl
    rfl rfl]
  rw [unbufferLoop_exhaust (some ⟨.up u, newDrain⟩) newDrain
    (pp.map TOut.item) pp (drainAbs_items pp) _ rfl rfl rfl]
  simp [unpauseTok, finEvs, unbufferIterator, List.append_assoc]

/-- C2 witness: two buffered output items are re-chunked by
`reassemble` into three items and replayed to the new sink before the
upstream hand-off. -/
theorem c2_divert_replay_witness :
    divert wReassemble (fun _ _ => true) (fun _ => none) 9 wDivWorld =
      { s := wDivWorld.s,
        trace := [GEv.onUp 1 .pauseFlow,
          .toDrain 9 (.flowingFrom .siphon), .toDrain 9 (.receive 4),
          .toDrain 9 (.receive 5), .toDrain 9 (.receive 7),
          .onUp 1 (.flowTo 9), .toDrain 9 (.flowingFrom (.upstream 1)),
          .onUp 1 .unpause],
        crashed := none } :=
  (c2_divert_replay wReassemble (fun _ _ => true) (fun _ => none) 9 1
    wDivWorld (by decide) (by decide)).trans (by decide)

/-- C1 witness: two received items, each yielding an item, a Deferred
and a trailing item; the two resolutions splice their values back in
position. -/
theorem c1_receive_order_witness :
    (runIn wTube [.recv 1, .fire (.item 7), .recv 2, .fire (.item 8)]
        wWorld).trace =
      wWorld.trace ++
        [.toDrain 0 (.receive 1), .onUp 1 .pauseFlow, .toDrain 0 (.receive 7),
         .toDrain 0 (.receive 11), .onUp 1 .unpause, .toDrain 0 (.receive 2),
         .onUp 1 .pauseFlow, .toDrain 0 (.receive 8),
         .toDrain 0 (.receive 12), .onUp 1 .unpause] ∧
      Inv 0 1 ⟨none, none, false⟩
        (runIn wTube [.recv 1, .fire (.item 7), .recv 2, .fire (.item 8)]
          wWorld) :=
  c1_receive_order wTube 0 1 [.recv 1, .fire (.item 7), .recv 2, .fire (.item 8)]
    ⟨none, none, false⟩
    [.toDrain 0 (.receive 1), .onUp 1 .pauseFlow, .toDrain 0 (.receive 7),
     .toDrain 0 (.receive 11), .onUp 1 .unpause, .toDrain 0 (.receive 2),
     .onUp 1 .pauseFlow, .toDrain 0 (.receive 8),
     .toDrain 0 (.receive 12), .onUp 1 .unpause]
    wWorld (by decide) (by decide)

/-! ### C8: the `started` hook fires at most once per engine -/

/-- `_SiphonFount.flowTo` never touches the start observables. -/
lemma fountFlowTo_esc (d : Option Nat) (w : W β) :
    escOf (fountFlowTo d w) = escOf w := by
  obtain ⟨⟨cp, pbpc, pend, fws, es, pbnd, ub, srsn, fp, dr, ft, wfl, sc⟩, tr, cr⟩ := w
  rcases cr with _ | e
  swap
  · rfl
  rw [fountFlowTo]
  rw [if_neg (by simp)]
  rcases d with _ | dn
  · rcases dr with _ | old <;> rfl
  · rcases dr with _ | old <;> dsimp only [emitD] <;> cases pbnd
    · rw [if_neg (by simp)]
      rw [if_neg (by simp)]
      exact (unbufferIterator_frame _).2.2.2
    · rw [if_pos rfl]
      split
      · exact (fountUnpause_frame _).2.2.2
      · exact ((unbufferIterator_frame _).2.2.2).trans
          ((fountUnpause_frame _).2.2.2)
    · rw [if_neg (by simp)]
      rw [if_neg (by simp)]
      exact (unbufferIterator_frame _).2.2.2
    · rw [if_pos rfl]
      split
      · exact (fountUnpause_frame _).2.2.2
      · exact ((unbufferIterator_frame _).2.2.2).trans
          ((fountUnpause_frame _).2.2.2)

/-- The common tail of `flowingFrom` (the crash guard and the
re-attachment of a previously set downstream) leaves the start
observables untouched. -/
lemma dffTail_esc (w : W β) :
    escOf (if w.crashed.isSome then w
      else
        match w.s.drain with
        | none => w
        | some d => fountFlowTo (some d) w) = escOf w := by
  split
  · rfl
  · split
    · rfl
    · exact fountFlowTo_esc _ _

/-- `_deliverFrom` never touches the start observables. -/
lemma deliverFrom_esc (h : HookRes β) (w : W β) :
    escOf (deliverFrom h w) = escOf w := by
  obtain ⟨⟨cp, pbpc, pend, fws, es, pbnd, ub, srsn, fp, dr, ft, wfl, sc⟩, tr, cr⟩ := w
  rcases cr with _ | e
  swap
  · rfl
  rcases pend with _ | p0
  swap
  · rfl
  rcases h with e0 | _ | p
  · rcases ft with _ | f
    · rfl
    · cases f <;> rcases dr with _ | d <;> rfl
  · rfl
  · rcases dr with _ | d
    · cases pbnd
      · exact Eq.trans
          ((unbufferIterator_frame
            { fountPauseFlow
                { s := { currentlyPaused := cp, pauseBecausePauseCalled := pbpc,
                         pendingIterator := some p, flowWasStopped := fws,
                         everStarted := es, pauseBecauseNoDrain := false,
                         unbuffering := ub, flowStoppingReason := srsn,
                         fountPauses := fp, drain := none, fount := ft,
                         waitingFuture := wfl, startedCount := sc },
                  trace := tr, crashed := none } with
              s.pauseBecauseNoDrain := true }).2.2.2)
          ((fountPauseFlow_frame
            { s := { currentlyPaused := cp, pauseBecausePauseCalled := pbpc,
                     pendingIterator := some p, flowWasStopped := fws,
                     everStarted := es, pauseBecauseNoDrain := false,
                     unbuffering := ub, flowStoppingReason := srsn,
                     fountPauses := fp, drain := none, fount := ft,
                     waitingFuture := wfl, startedCount := sc },
              trace := tr, crashed := none }).2.2.2.2)
      · exact (unbufferIterator_frame
          { s := { currentlyPaused := cp, pauseBecausePauseCalled := pbpc,
                   pendingIterator := some p, flowWasStopped := fws,
                   everStarted := es, pauseBecauseNoDrain := true,
                   unbuffering := ub, flowStoppingReason := srsn,
                   fountPauses := fp, drain := none, fount := ft,
                   waitingFuture := wfl, startedCount := sc },
            trace := tr, crashed := none }).2.2.2
    · exact (unbufferIterator_frame
        { s := { currentlyPaused := cp, pauseBecausePauseCalled := pbpc,
                 pendingIterator := some p, flowWasStopped := fws,
                 everStarted := es, pauseBecauseNoDrain := pbnd,
                 unbuffering := ub, flowStoppingReason := srsn,
                 fountPauses := fp, drain := some d, fount := ft,
                 waitingFuture := wfl, startedCount := sc },
          trace := tr, crashed := none }).2.2.2

/-- `receive` never touches the start observables. -/
lemma receive_esc (t : Tube α β) (a : α) (w : W β) :
    escOf (receive t a w) = escOf w := by
  rw [receive]
  split
  · rfl
  · exact deliverFrom_esc _ _

/-- `flowStopped` on the Sink endpoint never touches the start
observables. -/
lemma drainFlowStopped_esc (t : Tube α β) (r : Rsn) (w : W β) :
    escOf (drainFlowStopped t r w) = escOf w := by
  rw [drainFlowStopped]
  split
  · rfl
  · exact deliverFrom_esc _ _

/-- `stopFlow` on the Source endpoint never touches the start
observables. -/
lemma fountStopFlow_esc (w : W β) :
    escOf (fountStopFlow w) = escOf w := by
  obtain ⟨⟨cp, pbpc, pend, fws, es, pbnd, ub, srsn, fp, dr, ft, wfl, sc⟩, tr, cr⟩ := w
  rcases cr with _ | e
  swap
  · rfl
  rcases ft with _ | f
  · rfl
  · cases f <;> rfl

/-- An external `pauseFlow` never touches the start observables. -/
lemma extPauseFlow_esc (w : W β) :
    escOf (extPauseFlow w) = escOf w := by
  obtain ⟨⟨cp, pbpc, pend, fws, es, pbnd, ub, srsn, fp, dr, ft, wfl, sc⟩, tr, cr⟩ := w
  rcases cr with _ | e
  swap
  · rfl
  exact (fountPauseFlow_frame _).2.2.2.2

/-- A Deferred resolution never touches the start observables. -/
lemma fire_esc (v : TOut β) (w : W β) :
    escOf (fire v w) = escOf w := by
  obtain ⟨⟨cp, pbpc, pend, fws, es, pbnd, ub, srsn, fp, dr, ft, wfl, sc⟩, tr, cr⟩ := w
  rcases cr with _ | e
  swap
  · rfl
  cases wfl
  · rfl
  · exact (fountUnpause_frame _).2.2.2

/-- `divert` never touches the start observables of the diverted
engine. -/
lemma divert_esc (reassemble : Option (List (TOut β)) → Option (List β))
    (ioe : Nat → Nat → Bool) (uot : Nat → Option Nat) (nd : Nat) (w : W β) :
    escOf (divert reassemble ioe uot nd w) = escOf w := by
  rw [divert]
  split
  · rfl
  · rcases hf : w.s.fount with _ | f
    · rfl
    · rfl

/-- `flowingFrom` with no new upstream, or on an engine that has already
started, leaves the start observables untouched: `started` is not
invoked again on re-attachment. -/
lemma drainFlowingFrom_skip (t : Tube α β) (ioe : Nat → Nat → Bool)
    (uot : Nat → Option Nat) (fnt : Option SFount) (w : W β)
    (h : w.s.everStarted = true ∨ fnt = none) :
    escOf (drainFlowingFrom t ioe uot fnt w) = escOf w := by
  obtain ⟨⟨cp, pbpc, pend, fws, es, pbnd, ub, srsn, fp, dr, ft, wfl, sc⟩, tr, cr⟩ := w
  rcases cr with _ | e
  swap
  · rfl
  rcases h with hes | hfn
  · simp only at hes
    subst hes
    rcases fnt with _ | f
    · rw [drainFlowingFrom]
      rw [if_neg (by simp)]
      dsimp only
      rw [if_neg (by simp)]
      rcases pbpc with _ | (u2 | _) <;> exact dffTail_esc _
    · rw [drainFlowingFrom]
      rw [if_neg (by simp)]
      dsimp only
      split
      · rfl
      · cases f <;> rcases pbpc with _ | (u2 | _) <;> cases fws <;>
          exact dffTail_esc _
  · subst hfn
    rw [drainFlowingFrom]
    rw [if_neg (by simp)]
    dsimp only
    rw [if_neg (by simp)]
    rcases pbpc with _ | (u2 | _) <;> exact dffTail_esc _

/-- One `flowingFrom` call either leaves the start observables untouched
or -- only when the engine had never started and the incoming upstream
is present -- marks it started and counts one `started` invocation. -/
lemma drainFlowingFrom_esc_cases (t : Tube α β) (ioe : Nat → Nat → Bool)
    (uot : Nat → Option Nat) (fnt : Option SFount) (w : W β) :
    escOf (drainFlowingFrom t ioe uot fnt w) = escOf w ∨
      (w.s.everStarted = false ∧
        escOf (drainFlowingFrom t ioe uot fnt w) =
          (true, w.s.startedCount + 1)) := by
  obtain ⟨⟨cp, pbpc, pend, fws, es, pbnd, ub, srsn, fp, dr, ft, wfl, sc⟩, tr, cr⟩ := w
  rcases cr with _ | e
  swap
  · exact Or.inl rfl
  cases es
  case true =>
    exact Or.inl (drainFlowingFrom_skip t ioe uot fnt _ (Or.inl rfl))
  case false =>
    rcases fnt with _ | f
    · exact Or.inl (drainFlowingFrom_skip t ioe uot none _ (Or.inr rfl))
    · rw [drainFlowingFrom]
      rw [if_neg (by simp)]
      dsimp only
      split
      · exact Or.inl rfl
      · refine Or.inr ⟨rfl, ?_⟩
        cases f <;> rcases pbpc with _ | (u2 | _) <;> cases fws
        all_goals
          dsimp only [unpauseTok, sfPauseFlow, sfStopFlow, emitUp, emitD]
        all_goals
          try simp only [eq_self_iff_true, Bool.false_eq_true, if_true, if_false]
        all_goals
          exact (dffTail_esc _).trans (deliverFrom_esc _ _)

/-- Lift the `flowingFrom` classification to an arbitrary operation:
only a `fromUp` attachment can touch the start observables, and then
only by the started transition. -/
lemma stepOp_esc_or (t : Tube α β) (ioe : Nat → Nat → Bool)
    (uot : Nat → Option Nat)
    (reassemble : Option (List (TOut β)) → Option (List β))
    (op : Op α β) (w : W β) :
    escOf (stepOp t ioe uot reassemble op w) = escOf w ∨
      (w.s.everStarted = false ∧
        escOf (stepOp t ioe uot reassemble op w) =
          (true, w.s.startedCount + 1)) := by
  cases op with
  | fromUp fnt => exact drainFlowingFrom_esc_cases t ioe uot fnt w
  | recv a => exact Or.inl (receive_esc t a w)
  | stop r => exact Or.inl (drainFlowStopped_esc t r w)
  | toDrain d => exact Or.inl (fountFlowTo_esc d w)
  | stopUp => exact Or.inl (fountStopFlow_esc w)
  | extPause => exact Or.inl (extPauseFlow_esc w)
  | fireFuture v => exact Or.inl (fire_esc v w)
  | divertTo nd => exact Or.inl (divert_esc reassemble ioe uot nd w)

/-- One operation preserves the start invariant: the ghost count of
`started` invocations is `1` when the engine has started and `0`
otherwise. -/
lemma stepOp_started (t : Tube α β) (ioe : Nat → Nat → Bool)
    (uot : Nat → Option Nat)
    (reassemble : Option (List (TOut β)) → Option (List β))
    (op : Op α β) (w : W β)
    (hI : w.s.startedCount = (if w.s.everStarted then 1 else 0)) :
    (stepOp t ioe uot reassemble op w).s.startedCount =
      (if (stepOp t ioe uot reassemble op w).s.everStarted then 1
       else 0) := by
  rcases stepOp_esc_or t ioe uot reassemble op w with h | ⟨hes, h⟩
  · have h1 : (stepOp t ioe uot reassemble op w).s.everStarted =
        w.s.everStarted := congrArg Prod.fst h
    have h2 : (stepOp t ioe uot reassemble op w).s.startedCount =
        w.s.startedCount := congrArg Prod.snd h
    rw [h1, h2]
    exact hI
  · have h1 : (stepOp t ioe uot reassemble op w).s.everStarted = true :=
      congrArg Prod.fst h
    have h2 : (stepOp t ioe uot reassemble op w).s.startedCount =
        w.s.startedCount + 1 := congrArg Prod.snd h
    rw [h1, h2, hI, hes]
    simp

/-- The start invariant holds along any operation sequence. -/
lemma runOps_started (t : Tube α β) (ioe : Nat → Nat → Bool)
    (uot : Nat → Option Nat)
    (reassemble : Option (List (TOut β)) → Option (List β)) :
    ∀ (ops : List (Op α β)) (w : W β),
      w.s.startedCount = (if w.s.everStarted then 1 else 0) →
      (runOps t ioe uot reassemble ops w).s.startedCount =
        (if (runOps t ioe uot reassemble ops w).s.everStarted then 1
         else 0) := by
  intro ops
  induction ops with
  | nil => intro w hI; exact hI
  | cons op ops ih =>
    intro w hI
    have h2 := ih (stepOp t ioe uot reassemble op w)
      (stepOp_started t ioe uot reassemble op w hI)
    simpa [runOps, List.foldl_cons] using h2

/-- C8: for every unit, every environment and every sequence of
operations on a freshly built engine -- including repeated `flowingFrom`
re-attachments on its Sink endpoint -- the ghost count of `started`
invocations ends at most `1`; moreover a `flowingFrom` call whose fount
argument is absent, or one arriving after the engine has ever started,
leaves the start observables untouched, so `started` runs only on the
first attachment with a present upstream source
(`_SiphonDrain.flowingFrom`, `_Siphon._everStarted`). -/
theorem c8_started_once (t : Tube α β) (ioe : Nat → Nat → Bool)
    (uot : Nat → Option Nat)
    (reassemble : Option (List (TOut β)) → Option (List β))
    (ops : List (Op α β)) :
    (runOps t ioe uot reassemble ops { s := {} }).s.startedCount ≤ 1 ∧
      ∀ (fnt : Option SFount) (w : W β),
        w.s.everStarted = true ∨ fnt = none →
        escOf (drainFlowingFrom t ioe uot fnt w) = escOf w := by
  constructor
  · have h := runOps_started t ioe uot reassemble ops { s := {} } rfl
    rw [h]
    split <;> simp
  · exact fun fnt w h => drainFlowingFrom_skip t ioe uot fnt w h

/-- C8 witness: five operations including a first attachment, a later
re-attachment, a detaching attachment and a repeated attachment leave
the count at one; a re-attachment on an already started engine changes
nothing. -/
theorem c8_started_once_witness :
    (runOps wTube (fun _ _ => true) (fun _ => some 5) (fun _ => none)
        [Op.fromUp (some (SFount.up 1)), Op.toDrain (some 0),
         Op.fromUp (some (SFount.up 2)), Op.fromUp none,
         Op.fromUp (some (SFount.up 1))]
        { s := {} }).s.startedCount ≤ 1 ∧
      escOf (drainFlowingFrom wTube (fun _ _ => true) (fun _ => some 5)
        (some (SFount.up 2)) wWorld) = escOf wWorld :=
  ⟨(c8_started_once wTube (fun _ _ => true) (fun _ => some 5)
      (fun _ => none)
      [Op.fromUp (some (SFount.up 1)), Op.toDrain (some 0),
       Op.fromUp (some (SFount.up 2)), Op.fromUp none,
       Op.fromUp (some (SFount.up 1))]).1,
    (c8_started_once wTube (fun _ _ => true) (fun _ => some 5)
      (fun _ => none) []).2 (some (SFount.up 2)) wWorld
      (Or.inl (by decide))⟩
